import Mathlib

/-
Verification of the CPA 005 encoding/validation engine of the
eft-generator package (source file: the cpa005 module, referred to below
by its function names: validateConfig, validateTransactions,
validateCPA005, formatHeader, formatToCPA005).

Embedding conventions:
* JavaScript strings are modelled as Lean `String` (the inputs of
  interest are ASCII, where the two length notions agree).
* Monetary amounts have two-decimal precision per the data model, so a
  segment's dollar `amount` is represented exactly by its value in cents
  (`amountCents : Int`).  Under that representation the source's checks
  `amount <= 0` / `amount >= 100_000_000` are exactly
  `amountCents <= 0` / `amountCents >= 10_000_000_000`, and
  `Math.round(amount * 100)` is exactly `amountCents`.
* Calendar dates are modelled by `JDate` (year plus day-of-year), which
  is all the Julian-date rendering consumes.  The ambient wall clock
  (`new Date()`) is an explicit `now : JDate` argument.
* `throw new Error(...)` is modelled with `Except String`; the in-place
  mutation of the configuration performed by `validateConfig` is
  modelled by returning the updated configuration.
* TypeScript union types (`'C' | 'D'`, `'CAD' | 'USD'`) are modelled by
  the corresponding two-constructor inductives, matching the declared
  interfaces in types.ts.
-/

set_option maxRecDepth 1000000

/-! ## JavaScript string primitives used by the source -/

/-- JavaScript `s.padStart(n, c)`. -/
def padStart (s : String) (n : Nat) (c : Char) : String :=
  String.mk (List.replicate (n - s.length) c) ++ s

/-- JavaScript `s.padEnd(n, c)`. -/
def padEnd (s : String) (n : Nat) (c : Char) : String :=
  s ++ String.mk (List.replicate (n - s.length) c)

/-- JavaScript `s.slice(0, n)`. -/
def sliceTo (s : String) (n : Nat) : String :=
  String.mk (s.toList.take n)

/-- JavaScript `s.slice(-n)` (for positive `n`): the last `n` characters,
or the whole string when it is shorter than `n`. -/
def sliceLast (s : String) (n : Nat) : String :=
  String.mk (s.toList.drop (s.length - n))

/-- The test `/^\d{lo,hi}$/.test s` used throughout the validator. -/
def isDigitStr (lo hi : Nat) (s : String) : Bool :=
  decide (lo ≤ s.length) && decide (s.length ≤ hi) && s.toList.all (fun c => c.isDigit)

/-- Decimal digits of a positive number, most significant first; `fuel`
bounds the recursion and any `fuel ≥ n` gives the digits of `n`. -/
def decimalAux : Nat → Nat → List Char
  | 0, _ => []
  | fuel + 1, n =>
    if n < 10 then [Char.ofNat (48 + n)]
    else decimalAux fuel (n / 10) ++ [Char.ofNat (48 + n % 10)]

/-- JavaScript `n.toString()` for a non-negative integer `n`. -/
def decimal (n : Nat) : String :=
  if n = 0 then "0" else String.mk (decimalAux n n)

/-- JavaScript `i.toString()` for an integer `i`. -/
def intDecimal (i : Int) : String :=
  if i < 0 then "-" ++ decimal i.natAbs else decimal i.toNat

/-! ## Data model (types.ts) -/

/-- A calendar date, reduced to the two components the format's Julian
date rendering consumes: a year and a day-of-year. -/
structure JDate where
  yy : Nat
  ddd : Nat
deriving DecidableEq

/-- The `destinationCurrency` union type `'CAD' | 'USD'` of types.ts. -/
inductive Currency where
  | CAD : Currency
  | USD : Currency
deriving DecidableEq

/-- The string carried by a `Currency` value. -/
def Currency.code : Currency → String
  | .CAD => "CAD"
  | .USD => "USD"

/-- The `recordType` union type `'C' | 'D'` of types.ts. -/
inductive RecordType where
  | C : RecordType
  | D : RecordType
deriving DecidableEq

/-- The string carried by a `RecordType` value. -/
def RecordType.letter : RecordType → String
  | .C => "C"
  | .D => "D"

/-- The `EFTConfiguration` interface of types.ts. -/
structure EFTConfiguration where
  originatorId : String
  originatorShortName : Option String
  originatorLongName : String
  fileCreationNumber : String
  fileCreationDate : Option JDate
  destinationDataCentre : Option String
  destinationCurrency : Option Currency
deriving DecidableEq

/-- The `EFTTransactionSegment` interface of types.ts; `amountCents` is
the exact two-decimal dollar `amount` expressed in cents. -/
structure EFTTransactionSegment where
  cpaCode : Nat
  amountCents : Int
  paymentDate : Option JDate
  bankInstitutionNumber : String
  bankTransitNumber : String
  itemTraceNumber : Option String
  bankAccountNumber : String
  payeeName : String
  crossReferenceNumber : Option String
deriving DecidableEq

/-- The `EFTTransaction` interface of types.ts. -/
structure EFTTransaction where
  recordType : RecordType
  segments : List EFTTransactionSegment
deriving DecidableEq

/-! ## Components not under src -/

/-- Modelled from the spec: `toShortModernJulianDate` comes from the
`@cityssm/modern-julian-date` dependency, which is not among the
provided sources.  Per the spec (§4.1) it renders a calendar date as a
2-digit year-of-century followed by a 3-digit day-of-year (`YYDDD`),
always five characters. -/
def toShortModernJulianDate (d : JDate) : String :=
  padStart (decimal (d.yy % 100)) 2 '0' ++ padStart (decimal (d.ddd % 1000)) 3 '0'

/-- The `toJulianDate` helper of the cpa005 module: a literal `"0"`
prefixed to the short modern Julian date. -/
def toJulianDate (d : JDate) : String :=
  "0" ++ toShortModernJulianDate d

/-- Modelled from the spec: the known-CPA-code table behind
`isValidCPACode` lives in index.ts, which is not among the provided
sources; the spec (§4.2) only says segment CPA codes are "looked up
against a known-code table" and that the check is advisory (a warning,
never a failure).  A representative table of codes; every theorem below
is insensitive to its exact contents. -/
def cpaCodeList : List Nat :=
  [200, 201, 230, 240, 250, 260, 270, 280, 300, 310, 311, 320, 330, 350,
   360, 370, 400, 401, 402, 403, 430, 450, 452, 460, 470, 480, 600, 601,
   602, 603, 610, 620, 630, 640, 650, 660, 700]

/-- Modelled from the spec: membership in the known-CPA-code table. -/
def isValidCPACode (code : Nat) : Bool :=
  cpaCodeList.contains code

/-! ## Field Validator (cpa005 module) -/

/-- `validateConfig` (cpa005 module, lines 13-59).  Fatal checks on the
originator id, file creation number, destination data centre and
destination currency; warnings for a missing short name (which is
written back into the configuration, modelled by returning the updated
configuration) and for names that will be truncated. -/
def validateConfig (eftConfig : EFTConfiguration) : Except String (EFTConfiguration × Nat) :=
  if 10 < eftConfig.originatorId.length then
    .error ("originatorId length exceeds 10: " ++ eftConfig.originatorId)
  else if !(isDigitStr 1 4 eftConfig.fileCreationNumber) then
    .error ("fileCreationNumber should be 1 to 4 digits: " ++ eftConfig.fileCreationNumber)
  else if !(isDigitStr 0 5 (eftConfig.destinationDataCentre.getD "")) then
    .error ("destinationDataCentre should be 1 to 5 digits: "
      ++ eftConfig.destinationDataCentre.getD "")
  else
    let w1 : Nat := if eftConfig.originatorShortName = none then 1 else 0
    let eftConfig' :=
      if eftConfig.originatorShortName = none then
        { eftConfig with originatorShortName := some eftConfig.originatorLongName }
      else eftConfig
    let w2 : Nat := w1 + (if 15 < (eftConfig'.originatorShortName.getD "").length then 1 else 0)
    let w3 : Nat := w2 + (if 30 < eftConfig'.originatorLongName.length then 1 else 0)
    if !(["", "CAD", "USD"].contains ((eftConfig'.destinationCurrency.map Currency.code).getD "")) then
      .error "Unsupported destinationCurrency"
    else
      .ok (eftConfig', w3)

/-- The body of the per-segment loop of `validateTransactions` (cpa005
module, lines 91-141): advisory CPA-code and payee-name warnings, fatal
amount and bank-number checks, and duplicate tracking for supplied
cross-reference numbers (`seen` models the `crossReferenceNumbers`
set, in insertion order). -/
def validateSegment (seen : List String) (w : Nat) (seg : EFTTransactionSegment) :
    Except String (List String × Nat) :=
  let w1 := w + (if isValidCPACode seg.cpaCode then 0 else 1)
  if seg.amountCents ≤ 0 then
    .error ("Segment amount cannot be less than or equal to zero: " ++ intDecimal seg.amountCents)
  else if 10000000000 ≤ seg.amountCents then
    .error ("Segment amount cannot exceed $100,000,000: " ++ intDecimal seg.amountCents)
  else if !(isDigitStr 1 3 seg.bankInstitutionNumber) then
    .error ("bankInstitutionNumber should be 1 to 3 digits: " ++ seg.bankInstitutionNumber)
  else if !(isDigitStr 1 5 seg.bankTransitNumber) then
    .error ("bankTransitNumber should be 1 to 5 digits: " ++ seg.bankTransitNumber)
  else if !(isDigitStr 1 12 seg.bankAccountNumber) then
    .error ("bankAccountNumber should be 1 to 12 digits: " ++ seg.bankAccountNumber)
  else
    let w2 := w1 + (if 30 < seg.payeeName.length then 1 else 0)
    match seg.crossReferenceNumber with
    | none => .ok (seen, w2)
    | some x =>
      if seen.contains x then .ok (seen, w2 + 1)
      else .ok (seen ++ [x], w2)

/-- The per-segment loop of `validateTransactions`, over a list of
segments. -/
def validateSegments (seen : List String) (w : Nat) :
    List EFTTransactionSegment → Except String (List String × Nat)
  | [] => .ok (seen, w)
  | seg :: rest =>
    match validateSegment seen w seg with
    | .error e => .error e
    | .ok (seen', w') => validateSegments seen' w' rest

/-- The body of the per-transaction loop of `validateTransactions`
(cpa005 module, lines 74-141): warnings for zero or more than six
segments, the record-type check, then the segment loop. -/
def validateTransaction (seen : List String) (w : Nat) (tx : EFTTransaction) :
    Except String (List String × Nat) :=
  let w1 := w + (if tx.segments.length = 0 then 1 else 0)
  let w2 := w1 + (if 6 < tx.segments.length then 1 else 0)
  if !(["C", "D"].contains tx.recordType.letter) then
    .error ("Unsupported recordType: " ++ tx.recordType.letter)
  else
    validateSegments seen w2 tx.segments

/-- The per-transaction loop of `validateTransactions`, over a list of
transactions. -/
def validateTransactionsFrom (seen : List String) (w : Nat) :
    List EFTTransaction → Except String (List String × Nat)
  | [] => .ok (seen, w)
  | tx :: rest =>
    match validateTransaction seen w tx with
    | .error e => .error e
    | .ok (seen', w') => validateTransactionsFrom seen' w' rest

/-- `validateTransactions` (cpa005 module, lines 62-145): the
empty-list warning, the transaction-count capacity check, then the
per-transaction loop; returns the accumulated warning count. -/
def validateTransactions (eftTransactions : List EFTTransaction) : Except String Nat :=
  let w0 : Nat := if eftTransactions.length = 0 then 1 else 0
  if eftTransactions.length ≠ 0 ∧ 999999999 < eftTransactions.length then
    .error "Transaction count exceeds 999,999,999."
  else
    (validateTransactionsFrom [] w0 eftTransactions).map (fun p => p.2)

/-- `validateCPA005` (cpa005 module, lines 147-152): configuration
validation (whose configuration update is threaded through) plus
transaction validation, warning counts added. -/
def validateCPA005 (eftConfig : EFTConfiguration) (eftTransactions : List EFTTransaction) :
    Except String (EFTConfiguration × Nat) :=
  match validateConfig eftConfig with
  | .error e => .error e
  | .ok (eftConfig', w1) =>
    match validateTransactions eftTransactions with
    | .error e => .error e
    | .ok w2 => .ok (eftConfig', w1 + w2)

/-! ## Record Encoder (cpa005 module) -/

/-- `formatHeader` (cpa005 module, lines 154-180). -/
def formatHeader (eftConfig : EFTConfiguration) (now : JDate) : String :=
  let fileCreationJulianDate := toJulianDate (eftConfig.fileCreationDate.getD now)
  let dataCentre :=
    match eftConfig.destinationDataCentre with
    | none => padEnd "" 5 ' '
    | some d => padStart d 5 '0'
  let destinationCurrency :=
    match eftConfig.destinationCurrency with
    | none => padEnd "" 3 ' '
    | some c => c.code
  "A" ++ padStart "1" 9 '0'
    ++ padEnd eftConfig.originatorId 10 ' '
    ++ sliceLast (padStart eftConfig.fileCreationNumber 4 '0') 4
    ++ fileCreationJulianDate
    ++ dataCentre
    ++ padEnd "" 20 ' '
    ++ destinationCurrency
    ++ padEnd "" 1406 ' '

/-- The opening of a physical detail record (cpa005 module, lines
225-229): record-type letter, 9-digit record sequence number,
originator id padded to 10, file creation number zero-padded to 4. -/
def detailLead (eftConfig : EFTConfiguration) (rt : RecordType) (recordCount : Nat) : String :=
  rt.letter
    ++ padStart (decimal recordCount) 9 '0'
    ++ padEnd eftConfig.originatorId 10 ' '
    ++ padStart eftConfig.fileCreationNumber 4 '0'

/-- The fallback cross-reference number (cpa005 module, lines 238-246)
used when a segment supplies none. -/
def fallbackCrossReference (eftConfig : EFTConfiguration) (recordCount segmentIndex : Nat) : String :=
  "f" ++ eftConfig.fileCreationNumber
    ++ "r" ++ decimal recordCount
    ++ "s" ++ decimal (segmentIndex + 1)

/-- The per-segment block appended to the current detail record (cpa005
module, lines 232-274). -/
def formatSegment (eftConfig : EFTConfiguration) (now : JDate) (recordCount segmentIndex : Nat)
    (seg : EFTTransactionSegment) : String :=
  let paymentJulianDate := toJulianDate (seg.paymentDate.getD now)
  let crossReferenceNumber :=
    seg.crossReferenceNumber.getD (fallbackCrossReference eftConfig recordCount segmentIndex)
  let originatorShortName := eftConfig.originatorShortName.getD eftConfig.originatorLongName
  decimal seg.cpaCode
    ++ padStart (intDecimal seg.amountCents) 10 '0'
    ++ paymentJulianDate
    ++ padStart seg.bankInstitutionNumber 4 '0'
    ++ padStart seg.bankTransitNumber 5 '0'
    ++ padEnd seg.bankAccountNumber 12 ' '
    ++ (match seg.itemTraceNumber with
        | none => padStart "" 22 '0'
        | some t => t ++ padStart (decimal (segmentIndex + 1)) 4 '0')
    ++ padStart "" 3 '0'
    ++ sliceTo (padEnd originatorShortName 15 ' ') 15
    ++ sliceTo (padEnd seg.payeeName 30 ' ') 30
    ++ sliceTo (padEnd eftConfig.originatorLongName 30 ' ') 30
    ++ padEnd (sliceTo eftConfig.originatorId 5) 10 ' '
    ++ sliceTo (padEnd crossReferenceNumber 19 ' ') 19
    ++ padEnd "" 9 ' '
    ++ padEnd "" 12 ' '
    ++ padEnd "" 15 ' '
    ++ padEnd "" 22 ' '
    ++ padEnd "" 2 ' '
    ++ padStart "" 11 '0'

/-- The mutable locals of `formatToCPA005`'s encoding loop (cpa005
module, lines 195-202): the running record count and the four trailer
totals. -/
structure EncState where
  recordCount : Nat
  totalValueDebits : Int
  totalNumberDebits : Nat
  totalValueCredits : Int
  totalNumberCredits : Nat
deriving DecidableEq

/-- The state update at the start of a chunk (cpa005 module, lines
217-223): the record count advances and the per-type record counter
advances. -/
def startChunkState (rt : RecordType) (st : EncState) : EncState :=
  { st with
    recordCount := st.recordCount + 1
    totalNumberCredits := st.totalNumberCredits + (match rt with | .C => 1 | .D => 0)
    totalNumberDebits := st.totalNumberDebits + (match rt with | .C => 0 | .D => 1) }

/-- The totals update after a segment is encoded (cpa005 module, lines
276-280). -/
def addSegmentValue (rt : RecordType) (cents : Int) (st : EncState) : EncState :=
  match rt with
  | .C => { st with totalValueCredits := st.totalValueCredits + cents }
  | .D => { st with totalValueDebits := st.totalValueDebits + cents }

/-- The inner segment loop of `formatToCPA005` (cpa005 module, lines
207-281): segments are walked in order with their index `i`; every
sixth index starts a new physical record (pushing the previous one,
unpadded, when `0 < i`), and each segment appends its block to the
current record.  Returns the pushed lines, the current record, and the
final state. -/
def encodeSegments (eftConfig : EFTConfiguration) (now : JDate) (rt : RecordType) :
    List EFTTransactionSegment → Nat → String → EncState → List String × String × EncState
  | [], _, record, st => ([], record, st)
  | seg :: rest, i, record, st =>
    if i % 6 = 0 then
      let pushed : List String := if 0 < i then [record] else []
      let st1 := startChunkState rt st
      let record1 := detailLead eftConfig rt st1.recordCount
        ++ formatSegment eftConfig now st1.recordCount i seg
      let r := encodeSegments eftConfig now rt rest (i + 1) record1
        (addSegmentValue rt seg.amountCents st1)
      (pushed ++ r.1, r.2)
    else
      encodeSegments eftConfig now rt rest (i + 1)
        (record ++ formatSegment eftConfig now st.recordCount i seg)
        (addSegmentValue rt seg.amountCents st)

/-- One iteration of the outer transaction loop of `formatToCPA005`
(cpa005 module, lines 204-286): the record is reset, the segments are
encoded, and a non-empty final record is pushed right-padded to 1464
characters. -/
def encodeTransaction (eftConfig : EFTConfiguration) (now : JDate) (st : EncState)
    (tx : EFTTransaction) : List String × EncState :=
  let r := encodeSegments eftConfig now tx.recordType tx.segments 0 "" st
  (r.1 ++ (if r.2.1 = "" then [] else [padEnd r.2.1 1464 ' ']), r.2.2)

/-- The outer transaction loop of `formatToCPA005`, over the
transaction list. -/
def encodeTransactions (eftConfig : EFTConfiguration) (now : JDate) :
    List EFTTransaction → EncState → List String × EncState
  | [], st => ([], st)
  | tx :: rest, st =>
    let r := encodeTransaction eftConfig now st tx
    let r' := encodeTransactions eftConfig now rest r.2
    (r.1 ++ r'.1, r'.2)

/-- The trailer record of `formatToCPA005` (cpa005 module, lines
288-301). -/
def formatTrailer (eftConfig : EFTConfiguration) (st : EncState) : String :=
  "Z" ++ padStart (decimal (st.recordCount + 1)) 9 '0'
    ++ padEnd eftConfig.originatorId 10 ' '
    ++ sliceLast (padStart eftConfig.fileCreationNumber 4 '0') 4
    ++ padStart (intDecimal st.totalValueDebits) 14 '0'
    ++ padStart (decimal st.totalNumberDebits) 8 '0'
    ++ padStart (intDecimal st.totalValueCredits) 14 '0'
    ++ padStart (decimal st.totalNumberCredits) 8 '0'
    ++ padEnd "" 1396 ' '

/-- The initial encoder state of `formatToCPA005` (cpa005 module, lines
195-202): the header is record 1 and all totals start at zero. -/
def initialEncState : EncState :=
  { recordCount := 1
    totalValueDebits := 0
    totalNumberDebits := 0
    totalValueCredits := 0
    totalNumberCredits := 0 }

/-- The ordered physical records emitted by `formatToCPA005` for an
already-validated configuration: header, detail records, trailer. -/
def encodeLines (eftConfig : EFTConfiguration) (now : JDate) (eftTransactions : List EFTTransaction) :
    List String :=
  let r := encodeTransactions eftConfig now eftTransactions initialEncState
  formatHeader eftConfig now :: r.1 ++ [formatTrailer eftConfig r.2]

/-- `formatToCPA005` (cpa005 module, lines 182-306): validation first
(whose configuration update is observed by the encoder, because the
source mutates the shared configuration object), then the encoded lines
joined with CRLF. -/
def formatToCPA005 (eftConfig : EFTConfiguration) (eftTransactions : List EFTTransaction)
    (now : JDate) : Except String String :=
  match validateCPA005 eftConfig eftTransactions with
  | .error e => .error e
  | .ok (eftConfig', _) =>
    .ok (String.intercalate "\r\n" (encodeLines eftConfig' now eftTransactions))

/-! ## Basic facts about the string primitives -/

theorem length_mkStr (l : List Char) : (String.mk l).length = l.length := rfl

theorem length_toList (s : String) : s.toList.length = s.length := rfl

theorem length_padStart (s : String) (n : Nat) (c : Char) :
    (padStart s n c).length = max n s.length := by
  simp [padStart, String.length_append, length_mkStr]
  omega

theorem length_padEnd (s : String) (n : Nat) (c : Char) :
    (padEnd s n c).length = max n s.length := by
  simp [padEnd, String.length_append, length_mkStr]
  omega

theorem length_sliceTo (s : String) (n : Nat) : (sliceTo s n).length = min n s.length := by
  simp [sliceTo, length_mkStr, List.length_take, length_toList]

theorem length_sliceLast (s : String) (n : Nat) : (sliceLast s n).length = min n s.length := by
  simp [sliceLast, length_mkStr, List.length_drop, length_toList]
  omega

theorem isDigitStr_length {lo hi : Nat} {s : String} (h : isDigitStr lo hi s = true) :
    lo ≤ s.length ∧ s.length ≤ hi := by
  simp [isDigitStr] at h
  exact ⟨h.1.1, h.1.2⟩

theorem ne_empty_of_length_pos {s : String} (h : 0 < s.length) : s ≠ "" := by
  intro he
  rw [he] at h
  simp at h

theorem decimalAux_length_le :
    ∀ fuel n k : Nat, 0 < n → n ≤ fuel → n < 10 ^ k → (decimalAux fuel n).length ≤ k := by
  intro fuel
  induction fuel with
  | zero => intro n k h1 h2 _; omega
  | succ fuel ih =>
    intro n k h1 h2 h3
    rw [decimalAux]
    split
    · rename_i hlt
      have hk : 1 ≤ k := by
        by_contra hk
        push_neg at hk
        interval_cases k
        simp at h3
        omega
      simpa using hk
    · rename_i hge
      push_neg at hge
      have hk2 : 2 ≤ k := by
        rcases k with _ | _ | k
        · simp at h3; omega
        · norm_num at h3; omega
        · omega
      have hdiv_pos : 0 < n / 10 := Nat.div_pos hge (by norm_num)
      have hfuel : n / 10 ≤ fuel := by
        have := Nat.div_lt_self h1 (show 1 < 10 by norm_num)
        omega
      have hlt : n / 10 < 10 ^ (k - 1) := by
        rw [Nat.div_lt_iff_lt_mul (show 0 < 10 by norm_num)]
        calc n < 10 ^ k := h3
          _ = 10 ^ (k - 1) * 10 := by
              rw [← pow_succ]
              congr 1
              omega
      have hrec := ih (n / 10) (k - 1) hdiv_pos hfuel hlt
      simp [List.length_append]
      omega

theorem decimal_length_le (n k : Nat) (hk : 0 < k) (h : n < 10 ^ k) :
    (decimal n).length ≤ k := by
  rw [decimal]
  split
  · simpa using hk
  · rename_i h0
    exact decimalAux_length_le n n k (Nat.pos_of_ne_zero h0) le_rfl h

theorem intDecimal_nonneg {i : Int} (h : 0 ≤ i) : intDecimal i = decimal i.toNat := by
  rw [intDecimal, if_neg (by omega)]

theorem toShortModernJulianDate_length (d : JDate) :
    (toShortModernJulianDate d).length = 5 := by
  have h1 : (decimal (d.yy % 100)).length ≤ 2 :=
    decimal_length_le _ 2 (by norm_num) (by have := Nat.mod_lt d.yy (show 0 < 100 by norm_num); omega)
  have h2 : (decimal (d.ddd % 1000)).length ≤ 3 :=
    decimal_length_le _ 3 (by norm_num) (by have := Nat.mod_lt d.ddd (show 0 < 1000 by norm_num); omega)
  simp [toShortModernJulianDate, String.length_append, length_padStart]
  omega

theorem toJulianDate_length (d : JDate) : (toJulianDate d).length = 6 := by
  rw [toJulianDate, String.length_append, toShortModernJulianDate_length]
  decide

theorem Currency.code_length (c : Currency) : c.code.length = 3 := by
  cases c <;> rfl

theorem RecordType.letter_length (rt : RecordType) : rt.letter.length = 1 := by
  cases rt <;> rfl

theorem eq_empty_of_length_zero {s : String} (h : s.length = 0) : s = "" := by
  cases s with
  | mk l =>
    cases l with
    | nil => rfl
    | cons a t => simp [length_mkStr] at h

theorem length_pos_of_ne_empty {s : String} (h : s ≠ "") : 0 < s.length := by
  by_contra h0
  push_neg at h0
  exact h (eq_empty_of_length_zero (by omega))

theorem append_ne_empty_left {s : String} (t : String) (h : s ≠ "") : s ++ t ≠ "" := by
  apply ne_empty_of_length_pos
  have := length_pos_of_ne_empty h
  rw [String.length_append]
  omega

/-! ## Facts guaranteed by successful validation -/

/-- The per-segment constraints whose violation makes
`validateTransactions` throw. -/
def SegValid (seg : EFTTransactionSegment) : Prop :=
  0 < seg.amountCents ∧ seg.amountCents < 10000000000
    ∧ isDigitStr 1 3 seg.bankInstitutionNumber = true
    ∧ isDigitStr 1 5 seg.bankTransitNumber = true
    ∧ isDigitStr 1 12 seg.bankAccountNumber = true

instance (seg : EFTTransactionSegment) : Decidable (SegValid seg) := by
  unfold SegValid
  infer_instance

theorem validateSegment_ok_valid {seen : List String} {w : Nat} {seg : EFTTransactionSegment}
    {r : List String × Nat} (h : validateSegment seen w seg = .ok r) : SegValid seg := by
  rw [validateSegment] at h
  split at h
  · simp at h
  · split at h
    · simp at h
    · split at h
      · simp at h
      · split at h
        · simp at h
        · split at h
          · simp at h
          · rename_i h1 h2 h3 h4 h5
            simp only [Bool.not_eq_true'] at h3 h4 h5
            exact ⟨by omega, by omega, by simpa using h3, by simpa using h4, by simpa using h5⟩

theorem validateSegments_ok_valid {seen : List String} {w : Nat}
    {segs : List EFTTransactionSegment} {r : List String × Nat}
    (h : validateSegments seen w segs = .ok r) : ∀ seg ∈ segs, SegValid seg := by
  induction segs generalizing seen w with
  | nil => intro seg hs; simp at hs
  | cons seg rest ih =>
    intro s hs
    rw [validateSegments] at h
    rcases hv : validateSegment seen w seg with e | p
    · rw [hv] at h; simp at h
    · rw [hv] at h
      obtain ⟨seen', w'⟩ := p
      rcases List.mem_cons.mp hs with rfl | hs
      · exact validateSegment_ok_valid hv
      · exact ih h s hs

theorem validateTransaction_ok_valid {seen : List String} {w : Nat} {tx : EFTTransaction}
    {r : List String × Nat} (h : validateTransaction seen w tx = .ok r) :
    ∀ seg ∈ tx.segments, SegValid seg := by
  rw [validateTransaction] at h
  split at h
  · simp at h
  · exact validateSegments_ok_valid h

theorem validateTransactionsFrom_ok_valid {seen : List String} {w : Nat}
    {txns : List EFTTransaction} {r : List String × Nat}
    (h : validateTransactionsFrom seen w txns = .ok r) :
    ∀ tx ∈ txns, ∀ seg ∈ tx.segments, SegValid seg := by
  induction txns generalizing seen w with
  | nil => intro tx ht; simp at ht
  | cons tx rest ih =>
    intro t ht
    rw [validateTransactionsFrom] at h
    rcases hv : validateTransaction seen w tx with e | p
    · rw [hv] at h; simp at h
    · rw [hv] at h
      obtain ⟨seen', w'⟩ := p
      rcases List.mem_cons.mp ht with rfl | ht
      · exact validateTransaction_ok_valid hv
      · exact ih h t ht

theorem validateTransactions_ok_valid {txns : List EFTTransaction} {w : Nat}
    (h : validateTransactions txns = .ok w) :
    ∀ tx ∈ txns, ∀ seg ∈ tx.segments, SegValid seg := by
  rw [validateTransactions] at h
  split at h
  · simp at h
  · rcases hv : validateTransactionsFrom [] (if txns.length = 0 then 1 else 0) txns with e | p
    · rw [hv] at h; simp [Except.map] at h
    · exact validateTransactionsFrom_ok_valid hv

theorem validateConfig_ok_fields {cfg c' : EFTConfiguration} {w : Nat}
    (h : validateConfig cfg = .ok (c', w)) :
    c'.originatorId = cfg.originatorId
    ∧ c'.originatorLongName = cfg.originatorLongName
    ∧ c'.fileCreationNumber = cfg.fileCreationNumber
    ∧ c'.fileCreationDate = cfg.fileCreationDate
    ∧ c'.destinationDataCentre = cfg.destinationDataCentre
    ∧ c'.destinationCurrency = cfg.destinationCurrency
    ∧ c'.originatorId.length ≤ 10
    ∧ isDigitStr 1 4 c'.fileCreationNumber = true
    ∧ (∀ d, c'.destinationDataCentre = some d → isDigitStr 0 5 d = true) := by
  rw [validateConfig] at h
  split at h
  · simp at h
  · split at h
    · simp at h
    · split at h
      · simp at h
      · rename_i h1 h2 h3
        simp only [Bool.not_eq_true'] at h2 h3
        split at h
        · -- originatorShortName was absent and has been defaulted
          simp only [] at h
          split at h
          · simp at h
          · simp only [Except.ok.injEq, Prod.mk.injEq] at h
            obtain ⟨hc', hw⟩ := h
            subst hc'
            refine ⟨rfl, rfl, rfl, rfl, rfl, rfl, by simpa using h1, by simpa using h2, ?_⟩
            intro d hd
            simp only at hd
            rw [hd] at h3
            simpa using h3
        · -- originatorShortName was already present
          simp only [] at h
          split at h
          · simp at h
          · simp only [Except.ok.injEq, Prod.mk.injEq] at h
            obtain ⟨hc', hw⟩ := h
            subst hc'
            refine ⟨rfl, rfl, rfl, rfl, rfl, rfl, by simpa using h1, by simpa using h2, ?_⟩
            intro d hd
            rw [hd] at h3
            simpa using h3

/-! ## Chunk accounting for the segment loop -/

/-- Number of indices `j < len` with `(i + j) % 6 = 0`: the number of
physical records the segment loop starts when it begins at index `i`. -/
def chunkStarts : Nat → Nat → Nat
  | _, 0 => 0
  | i, len + 1 => (if i % 6 = 0 then 1 else 0) + chunkStarts (i + 1) len

/-- Number of physical detail records produced by a transaction with
`len` segments: `len` divided by 6, rounded up. -/
def numRecords (len : Nat) : Nat := (len + 5) / 6

theorem chunkStarts_closed : ∀ (len i : Nat), chunkStarts i len = (i + len + 5) / 6 - (i + 5) / 6 := by
  intro len
  induction len with
  | zero => intro i; simp [chunkStarts]
  | succ len ih =>
    intro i
    rw [chunkStarts, ih (i + 1)]
    split <;> omega

theorem chunkStarts_zero (len : Nat) : chunkStarts 0 len = numRecords len := by
  rw [chunkStarts_closed, numRecords]
  omega

/-- Sum of the cent amounts of a list of segments. -/
def segCents (segs : List EFTTransactionSegment) : Int :=
  (segs.map EFTTransactionSegment.amountCents).sum

theorem segCents_nil : segCents [] = 0 := rfl

theorem segCents_cons (seg : EFTTransactionSegment) (rest : List EFTTransactionSegment) :
    segCents (seg :: rest) = seg.amountCents + segCents rest := by
  simp [segCents]

/-! ## The encoder state across the loops -/

theorem encodeSegments_state (cfg : EFTConfiguration) (now : JDate) (rt : RecordType) :
    ∀ (segs : List EFTTransactionSegment) (i : Nat) (record : String) (st : EncState),
    (encodeSegments cfg now rt segs i record st).2.2 =
      { recordCount := st.recordCount + chunkStarts i segs.length
        totalValueDebits := st.totalValueDebits + (match rt with | .D => segCents segs | .C => 0)
        totalNumberDebits := st.totalNumberDebits + (match rt with | .D => chunkStarts i segs.length | .C => 0)
        totalValueCredits := st.totalValueCredits + (match rt with | .C => segCents segs | .D => 0)
        totalNumberCredits := st.totalNumberCredits + (match rt with | .C => chunkStarts i segs.length | .D => 0) } := by
  intro segs
  induction segs with
  | nil =>
    intro i record st
    cases rt <;> simp [encodeSegments, chunkStarts, segCents]
  | cons seg rest ih =>
    intro i record st
    rw [encodeSegments]
    split
    · rename_i hmod
      simp only [ih, segCents_cons]
      cases rt <;>
        simp [startChunkState, addSegmentValue, chunkStarts, hmod, EncState.mk.injEq] <;>
        omega
    · rename_i hmod
      simp only [ih, segCents_cons]
      cases rt <;>
        simp [addSegmentValue, chunkStarts, hmod, EncState.mk.injEq] <;>
        omega

theorem detailLead_append_ne_empty (cfg : EFTConfiguration) (rt : RecordType) (n : Nat)
    (s : String) : detailLead cfg rt n ++ s ≠ "" := by
  apply ne_empty_of_length_pos
  have := RecordType.letter_length rt
  simp [detailLead, String.length_append]
  omega

theorem encodeSegments_lines (cfg : EFTConfiguration) (now : JDate) (rt : RecordType) :
    ∀ (segs : List EFTTransactionSegment) (i : Nat) (record : String) (st : EncState),
    (i = 0 → record = "") →
    (0 < i → record ≠ "") →
    ((encodeSegments cfg now rt segs i record st).1.length
        + (if (encodeSegments cfg now rt segs i record st).2.1 = "" then 0 else 1)
      = chunkStarts i segs.length + (if record = "" then 0 else 1))
    ∧ ((encodeSegments cfg now rt segs i record st).2.1 = "" ↔ segs = [] ∧ record = "") := by
  intro segs
  induction segs with
  | nil =>
    intro i record st h0 hne
    simp [encodeSegments, chunkStarts]
  | cons seg rest ih =>
    intro i record st h0 hne
    rw [encodeSegments]
    simp only [List.length_cons]
    split
    · rename_i hmod
      simp only []
      generalize hR : detailLead cfg rt (startChunkState rt st).recordCount
          ++ formatSegment cfg now (startChunkState rt st).recordCount i seg = R
      have hRne : R ≠ "" := hR ▸ detailLead_append_ne_empty cfg rt _ _
      have hih := ih (i + 1) R (addSegmentValue rt seg.amountCents (startChunkState rt st))
        (by omega) (fun _ => hRne)
      have hr2 : (encodeSegments cfg now rt rest (i + 1) R
          (addSegmentValue rt seg.amountCents (startChunkState rt st))).2.1 ≠ "" :=
        fun hx => hRne (hih.2.mp hx).2
      have hcs : chunkStarts i (rest.length + 1) = 1 + chunkStarts (i + 1) rest.length := by
        rw [chunkStarts, if_pos hmod]
      have h1 := hih.1
      rw [if_neg hRne] at h1
      constructor
      · rw [List.length_append, if_neg hr2, hcs]
        rw [if_neg hr2] at h1
        by_cases hi : 0 < i
        · rw [if_pos hi, if_neg (hne hi)]
          simp only [List.length_cons, List.length_nil]
          omega
        · have hi0 : i = 0 := by omega
          rw [if_neg hi, if_pos (h0 hi0)]
          simp only [List.length_nil]
          omega
      · rw [hih.2]
        constructor
        · intro hx; exact absurd hx.2 hRne
        · intro hx; exact absurd hx.1 (List.cons_ne_nil seg rest)
    · rename_i hmod
      have hi : 0 < i := by omega
      have hpush : record ≠ "" := hne hi
      generalize hR : record ++ formatSegment cfg now st.recordCount i seg = R
      have hRne : R ≠ "" := hR ▸ append_ne_empty_left _ hpush
      have hih := ih (i + 1) R (addSegmentValue rt seg.amountCents st)
        (by omega) (fun _ => hRne)
      have hr2 : (encodeSegments cfg now rt rest (i + 1) R
          (addSegmentValue rt seg.amountCents st)).2.1 ≠ "" :=
        fun hx => hRne (hih.2.mp hx).2
      have hcs : chunkStarts i (rest.length + 1) = chunkStarts (i + 1) rest.length := by
        rw [chunkStarts, if_neg hmod]
        omega
      have h1 := hih.1
      rw [if_neg hRne] at h1
      constructor
      · rw [if_neg hr2, hcs, if_neg hpush]
        rw [if_neg hr2] at h1
        omega
      · rw [hih.2]
        constructor
        · intro hx; exact absurd hx.2 hRne
        · intro hx; exact absurd hx.1 (List.cons_ne_nil seg rest)

/-! ## Per-transaction and whole-list corollaries -/

theorem encodeTransaction_state (cfg : EFTConfiguration) (now : JDate) (st : EncState)
    (tx : EFTTransaction) :
    (encodeTransaction cfg now st tx).2 =
      { recordCount := st.recordCount + numRecords tx.segments.length
        totalValueDebits := st.totalValueDebits
          + (match tx.recordType with | .D => segCents tx.segments | .C => 0)
        totalNumberDebits := st.totalNumberDebits
          + (match tx.recordType with | .D => numRecords tx.segments.length | .C => 0)
        totalValueCredits := st.totalValueCredits
          + (match tx.recordType with | .C => segCents tx.segments | .D => 0)
        totalNumberCredits := st.totalNumberCredits
          + (match tx.recordType with | .C => numRecords tx.segments.length | .D => 0) } := by
  rw [encodeTransaction]
  simp only [encodeSegments_state, chunkStarts_zero]

theorem encodeTransaction_lines_length (cfg : EFTConfiguration) (now : JDate) (st : EncState)
    (tx : EFTTransaction) :
    (encodeTransaction cfg now st tx).1.length = numRecords tx.segments.length := by
  rw [encodeTransaction]
  have h := encodeSegments_lines cfg now tx.recordType tx.segments 0 "" st
    (fun _ => rfl) (by omega)
  simp only [List.length_append]
  by_cases hr : (encodeSegments cfg now tx.recordType tx.segments 0 "" st).2.1 = ""
  · rw [if_pos hr]
    have h1 := h.1
    rw [if_pos hr, if_pos rfl, chunkStarts_zero] at h1
    simpa using h1
  · rw [if_neg hr]
    have h1 := h.1
    rw [if_neg hr, if_pos rfl, chunkStarts_zero] at h1
    simpa using h1

/-- Total number of physical detail records for a transaction list. -/
def totalRecords (txns : List EFTTransaction) : Nat :=
  (txns.map (fun tx => numRecords tx.segments.length)).sum

/-- Total cents of all segments of Credit transactions. -/
def creditCents (txns : List EFTTransaction) : Int :=
  (txns.map (fun tx => match tx.recordType with | .C => segCents tx.segments | .D => 0)).sum

/-- Total cents of all segments of Debit transactions. -/
def debitCents (txns : List EFTTransaction) : Int :=
  (txns.map (fun tx => match tx.recordType with | .D => segCents tx.segments | .C => 0)).sum

/-- Total number of physical detail records of Credit transactions. -/
def creditRecords (txns : List EFTTransaction) : Nat :=
  (txns.map (fun tx => match tx.recordType with | .C => numRecords tx.segments.length | .D => 0)).sum

/-- Total number of physical detail records of Debit transactions. -/
def debitRecords (txns : List EFTTransaction) : Nat :=
  (txns.map (fun tx => match tx.recordType with | .D => numRecords tx.segments.length | .C => 0)).sum

theorem encodeTransactions_state (cfg : EFTConfiguration) (now : JDate) :
    ∀ (txns : List EFTTransaction) (st : EncState),
    (encodeTransactions cfg now txns st).2 =
      { recordCount := st.recordCount + totalRecords txns
        totalValueDebits := st.totalValueDebits + debitCents txns
        totalNumberDebits := st.totalNumberDebits + debitRecords txns
        totalValueCredits := st.totalValueCredits + creditCents txns
        totalNumberCredits := st.totalNumberCredits + creditRecords txns } := by
  intro txns
  induction txns with
  | nil =>
    intro st
    simp [encodeTransactions, totalRecords, debitCents, debitRecords, creditCents, creditRecords]
  | cons tx rest ih =>
    intro st
    rw [encodeTransactions]
    simp only [ih, encodeTransaction_state]
    cases htx : tx.recordType <;>
      simp [totalRecords, debitCents, debitRecords, creditCents, creditRecords,
        EncState.mk.injEq, htx] <;>
      omega

theorem encodeTransactions_lines_length (cfg : EFTConfiguration) (now : JDate) :
    ∀ (txns : List EFTTransaction) (st : EncState),
    (encodeTransactions cfg now txns st).1.length = totalRecords txns := by
  intro txns
  induction txns with
  | nil => intro st; simp [encodeTransactions, totalRecords]
  | cons tx rest ih =>
    intro st
    rw [encodeTransactions]
    simp only [List.length_append, encodeTransaction_lines_length, ih]
    simp [totalRecords]

/-! ## Record lengths -/

/-- Configuration facts needed for fixed-width records, guaranteed by
`validateConfig`. -/
def CfgFit (cfg : EFTConfiguration) : Prop :=
  cfg.originatorId.length ≤ 10 ∧ isDigitStr 1 4 cfg.fileCreationNumber = true

/-- The item-trace region keeps its 22-character width only when a
supplied override is 18 characters long and the 1-based segment position
has at most 4 digits. -/
def ItemFit (i : Nat) (seg : EFTTransactionSegment) : Prop :=
  match seg.itemTraceNumber with
  | none => True
  | some t => t.length = 18 ∧ i + 1 < 10000

instance (i : Nat) (seg : EFTTransactionSegment) : Decidable (ItemFit i seg) :=
  match h : seg.itemTraceNumber with
  | none => .isTrue (by simp only [ItemFit, h])
  | some t =>
    if h2 : t.length = 18 ∧ i + 1 < 10000 then
      .isTrue (by simp only [ItemFit, h]; exact h2)
    else
      .isFalse (by simp only [ItemFit, h]; exact h2)

/-- All the per-segment conditions under which the segment's block is
exactly 240 characters: validation-guaranteed facts plus a 3-digit CPA
code and a width-preserving item-trace region. -/
def GoodSeg (i : Nat) (seg : EFTTransactionSegment) : Prop :=
  SegValid seg ∧ (decimal seg.cpaCode).length = 3 ∧ ItemFit i seg

instance (i : Nat) (seg : EFTTransactionSegment) : Decidable (GoodSeg i seg) := by
  unfold GoodSeg
  infer_instance

theorem formatSegment_length (cfg : EFTConfiguration) (now : JDate) (rc i : Nat)
    (seg : EFTTransactionSegment) (hg : GoodSeg i seg) :
    (formatSegment cfg now rc i seg).length = 240 := by
  obtain ⟨⟨ha0, ha1, hi3, ht5, hacc⟩, h3, hit⟩ := hg
  have hinst := (isDigitStr_length hi3).2
  have htr := (isDigitStr_length ht5).2
  have hac := (isDigitStr_length hacc).2
  have hamt : (intDecimal seg.amountCents).length ≤ 10 := by
    rw [intDecimal_nonneg (by omega)]
    exact decimal_length_le _ 10 (by norm_num) (by omega)
  rw [formatSegment]
  cases hitm : seg.itemTraceNumber with
  | none =>
    simp only [hitm, String.length_append, length_padStart, length_padEnd, length_sliceTo,
      toJulianDate_length, h3]
    simp
    omega
  | some t =>
    have hit' := hit
    simp only [ItemFit, hitm] at hit'
    obtain ⟨ht18, hidx⟩ := hit'
    have hd4 : (decimal (i + 1)).length ≤ 4 := decimal_length_le _ 4 (by norm_num) (by omega)
    simp only [hitm, String.length_append, length_padStart, length_padEnd, length_sliceTo,
      toJulianDate_length, h3, ht18]
    simp
    omega

theorem detailLead_length (cfg : EFTConfiguration) (rt : RecordType) (rc : Nat)
    (hc : CfgFit cfg) (hrc : rc < 1000000000) :
    (detailLead cfg rt rc).length = 24 := by
  obtain ⟨hid, hfcn⟩ := hc
  have h4 := (isDigitStr_length hfcn).2
  have h9 : (decimal rc).length ≤ 9 := decimal_length_le _ 9 (by norm_num) (by norm_num; omega)
  have hl := RecordType.letter_length rt
  simp only [detailLead, String.length_append, length_padStart, length_padEnd]
  omega

/-- The length of the record under construction when the segment walk
stands at index `j` (for `0 < j`): full records are 1464 characters,
partial ones hold `j % 6` blocks after the 24-character lead. -/
def lenAt (j : Nat) : Nat :=
  if j % 6 = 0 then 1464 else 24 + (j % 6) * 240

theorem encodeSegments_length (cfg : EFTConfiguration) (now : JDate) (rt : RecordType)
    (hc : CfgFit cfg) :
    ∀ (segs : List EFTTransactionSegment) (i : Nat) (record : String) (st : EncState),
    (∀ j (hj : j < segs.length), GoodSeg (i + j) (segs.get ⟨j, hj⟩)) →
    (i = 0 → record = "") →
    (0 < i → record.length = lenAt i) →
    st.recordCount + chunkStarts i segs.length < 1000000000 →
    (∀ l ∈ (encodeSegments cfg now rt segs i record st).1, l.length = 1464)
    ∧ (0 < i + segs.length →
        (encodeSegments cfg now rt segs i record st).2.1.length = lenAt (i + segs.length)) := by
  intro segs
  induction segs with
  | nil =>
    intro i record st hg h0 hlen hb
    refine ⟨by simp [encodeSegments], ?_⟩
    intro hpos
    simp only [encodeSegments, List.length_nil, Nat.add_zero] at hpos ⊢
    exact hlen hpos
  | cons seg rest ih =>
    intro i record st hg h0 hlen hb
    have hgood0 : GoodSeg i (seg) := by
      have := hg 0 (by simp)
      simpa using this
    rw [encodeSegments]
    simp only [List.length_cons] at hb ⊢
    split
    · rename_i hmod
      simp only []
      have hcs : chunkStarts i (rest.length + 1) = 1 + chunkStarts (i + 1) rest.length := by
        rw [chunkStarts, if_pos hmod]
      have hrc1 : (startChunkState rt st).recordCount < 1000000000 := by
        simp only [startChunkState]
        omega
      have hlead : (detailLead cfg rt (startChunkState rt st).recordCount).length = 24 :=
        detailLead_length cfg rt _ hc hrc1
      have hblock : (formatSegment cfg now (startChunkState rt st).recordCount i seg).length = 240 :=
        formatSegment_length cfg now _ i seg hgood0
      have hR : (detailLead cfg rt (startChunkState rt st).recordCount
          ++ formatSegment cfg now (startChunkState rt st).recordCount i seg).length
          = lenAt (i + 1) := by
        rw [String.length_append, hlead, hblock, lenAt]
        have : (i + 1) % 6 = 1 := by omega
        rw [this]
        norm_num
      have hih := ih (i + 1) _ (addSegmentValue rt seg.amountCents (startChunkState rt st))
        (by
          intro j hj
          have := hg (j + 1) (by simp only [List.length_cons]; omega)
          have harith : i + (j + 1) = i + 1 + j := by omega
          rw [harith] at this
          simpa using this)
        (by omega)
        (fun _ => hR)
        (by
          simp only [addSegmentValue, startChunkState]
          cases rt <;> simp <;> omega)
      refine ⟨?_, ?_⟩
      · intro l hl
        rcases List.mem_append.mp hl with hl | hl
        · rcases Nat.eq_zero_or_pos i with hi | hi
          · rw [if_neg (by omega)] at hl
            simp at hl
          · rw [if_pos hi] at hl
            simp only [List.mem_singleton] at hl
            subst hl
            have := hlen hi
            rw [lenAt, if_pos hmod] at this
            exact this
        · exact hih.1 l hl
      · intro _
        have harith : i + (rest.length + 1) = i + 1 + rest.length := by omega
        rw [harith]
        exact hih.2 (by omega)
    · rename_i hmod
      have hi : 0 < i := by omega
      have hcs : chunkStarts i (rest.length + 1) = chunkStarts (i + 1) rest.length := by
        rw [chunkStarts, if_neg hmod]
        omega
      have hblock : (formatSegment cfg now st.recordCount i seg).length = 240 :=
        formatSegment_length cfg now _ i seg hgood0
      have hR : (record ++ formatSegment cfg now st.recordCount i seg).length = lenAt (i + 1) := by
        rw [String.length_append, hblock, hlen hi, lenAt, lenAt, if_neg hmod]
        by_cases h5 : (i + 1) % 6 = 0
        · rw [if_pos h5]
          have : i % 6 = 5 := by omega
          rw [this]
        · rw [if_neg h5]
          have : (i + 1) % 6 = i % 6 + 1 := by omega
          rw [this]
          ring
      have hih := ih (i + 1) _ (addSegmentValue rt seg.amountCents st)
        (by
          intro j hj
          have := hg (j + 1) (by simp only [List.length_cons]; omega)
          have harith : i + (j + 1) = i + 1 + j := by omega
          rw [harith] at this
          simpa using this)
        (by omega)
        (fun _ => hR)
        (by
          simp only [addSegmentValue]
          cases rt <;> simp <;> omega)
      refine ⟨hih.1, ?_⟩
      intro _
      have harith : i + (rest.length + 1) = i + 1 + rest.length := by omega
      rw [harith]
      exact hih.2 (by omega)

theorem lenAt_le (j : Nat) : lenAt j ≤ 1464 := by
  rw [lenAt]
  split <;> omega

/-- All segment-block conditions for one transaction. -/
def GoodTx (tx : EFTTransaction) : Prop :=
  ∀ j (hj : j < tx.segments.length), GoodSeg j (tx.segments.get ⟨j, hj⟩)

theorem encodeTransaction_length (cfg : EFTConfiguration) (now : JDate) (st : EncState)
    (tx : EFTTransaction) (hc : CfgFit cfg) (hg : GoodTx tx)
    (hb : st.recordCount + numRecords tx.segments.length < 1000000000) :
    ∀ l ∈ (encodeTransaction cfg now st tx).1, l.length = 1464 := by
  have hmain := encodeSegments_length cfg now tx.recordType hc tx.segments 0 "" st
    (by intro j hj; simpa using hg j hj)
    (fun _ => rfl)
    (fun h => absurd h (by omega))
    (by rw [chunkStarts_zero]; exact hb)
  have hiff := (encodeSegments_lines cfg now tx.recordType tx.segments 0 "" st
    (fun _ => rfl) (fun h => absurd h (by omega))).2
  rw [encodeTransaction]
  intro l hl
  rcases List.mem_append.mp hl with hl | hl
  · exact hmain.1 l hl
  · by_cases hre : (encodeSegments cfg now tx.recordType tx.segments 0 "" st).2.1 = ""
    · rw [if_pos hre] at hl
      simp at hl
    · rw [if_neg hre] at hl
      simp only [List.mem_singleton] at hl
      subst hl
      have hne : tx.segments ≠ [] := fun h => hre (hiff.mpr ⟨h, rfl⟩)
      have hpos : 0 < tx.segments.length := List.length_pos.mpr hne
      have hrl := hmain.2 (by omega)
      rw [length_padEnd, hrl]
      have hle := lenAt_le (0 + tx.segments.length)
      omega

theorem totalRecords_cons (tx : EFTTransaction) (rest : List EFTTransaction) :
    totalRecords (tx :: rest) = numRecords tx.segments.length + totalRecords rest := by
  simp [totalRecords]

theorem encodeTransactions_length (cfg : EFTConfiguration) (now : JDate) (hc : CfgFit cfg) :
    ∀ (txns : List EFTTransaction) (st : EncState),
    (∀ tx ∈ txns, GoodTx tx) →
    st.recordCount + totalRecords txns < 1000000000 →
    ∀ l ∈ (encodeTransactions cfg now txns st).1, l.length = 1464 := by
  intro txns
  induction txns with
  | nil => intro st hg hb l hl; simp [encodeTransactions] at hl
  | cons tx rest ih =>
    intro st hg hb l hl
    rw [totalRecords_cons] at hb
    rw [encodeTransactions] at hl
    simp only [List.mem_append] at hl
    rcases hl with hl | hl
    · exact encodeTransaction_length cfg now st tx hc (hg tx (by simp)) (by omega) l hl
    · refine ih (encodeTransaction cfg now st tx).2
        (fun t ht => hg t (List.mem_cons_of_mem tx ht)) ?_ l hl
      rw [encodeTransaction_state]
      simp only []
      omega

theorem formatHeader_length (cfg : EFTConfiguration) (now : JDate)
    (hid : cfg.originatorId.length ≤ 10)
    (hdc : ∀ d, cfg.destinationDataCentre = some d → isDigitStr 0 5 d = true) :
    (formatHeader cfg now).length = 1464 := by
  have hA : ("A" : String).length = 1 := rfl
  have h1 : ("1" : String).length = 1 := rfl
  have hE : ("" : String).length = 0 := rfl
  rw [formatHeader]
  cases hdcv : cfg.destinationDataCentre with
  | none =>
    cases hcur : cfg.destinationCurrency with
    | none =>
      simp only [hdcv, hcur, String.length_append, length_padStart, length_padEnd,
        length_sliceLast, toJulianDate_length, hA, h1, hE]
      omega
    | some c =>
      have hcl := Currency.code_length c
      simp only [hdcv, hcur, String.length_append, length_padStart, length_padEnd,
        length_sliceLast, toJulianDate_length, hA, h1, hE, hcl]
      omega
  | some d =>
    have hd5 := (isDigitStr_length (hdc d hdcv)).2
    cases hcur : cfg.destinationCurrency with
    | none =>
      simp only [hdcv, hcur, String.length_append, length_padStart, length_padEnd,
        length_sliceLast, toJulianDate_length, hA, h1, hE]
      omega
    | some c =>
      have hcl := Currency.code_length c
      simp only [hdcv, hcur, String.length_append, length_padStart, length_padEnd,
        length_sliceLast, toJulianDate_length, hA, h1, hE, hcl]
      omega

theorem formatTrailer_length (cfg : EFTConfiguration) (st : EncState)
    (hid : cfg.originatorId.length ≤ 10)
    (hrc : st.recordCount + 1 < 1000000000)
    (hvd0 : 0 ≤ st.totalValueDebits) (hvd : st.totalValueDebits < 100000000000000)
    (hvc0 : 0 ≤ st.totalValueCredits) (hvc : st.totalValueCredits < 100000000000000)
    (hnd : st.totalNumberDebits < 100000000) (hnc : st.totalNumberCredits < 100000000) :
    (formatTrailer cfg st).length = 1464 := by
  have hZ : ("Z" : String).length = 1 := rfl
  have hE : ("" : String).length = 0 := rfl
  have h9 : (decimal (st.recordCount + 1)).length ≤ 9 :=
    decimal_length_le _ 9 (by norm_num) (by norm_num; omega)
  have hd14 : (intDecimal st.totalValueDebits).length ≤ 14 := by
    rw [intDecimal_nonneg hvd0]
    exact decimal_length_le _ 14 (by norm_num) (by omega)
  have hc14 : (intDecimal st.totalValueCredits).length ≤ 14 := by
    rw [intDecimal_nonneg hvc0]
    exact decimal_length_le _ 14 (by norm_num) (by omega)
  have hnd8 : (decimal st.totalNumberDebits).length ≤ 8 :=
    decimal_length_le _ 8 (by norm_num) (by norm_num; omega)
  have hnc8 : (decimal st.totalNumberCredits).length ≤ 8 :=
    decimal_length_le _ 8 (by norm_num) (by norm_num; omega)
  rw [formatTrailer]
  simp only [String.length_append, length_padStart, length_padEnd, length_sliceLast, hZ, hE]
  omega

theorem segCents_nonneg (segs : List EFTTransactionSegment)
    (h : ∀ seg ∈ segs, 0 < seg.amountCents) : 0 ≤ segCents segs := by
  induction segs with
  | nil => simp [segCents]
  | cons seg rest ih =>
    rw [segCents_cons]
    have h1 := h seg (by simp)
    have h2 := ih (fun s hs => h s (List.mem_cons_of_mem seg hs))
    omega

theorem creditCents_nonneg (txns : List EFTTransaction)
    (h : ∀ tx ∈ txns, ∀ seg ∈ tx.segments, 0 < seg.amountCents) : 0 ≤ creditCents txns := by
  induction txns with
  | nil => simp [creditCents]
  | cons tx rest ih =>
    have h2 := ih (fun t ht => h t (List.mem_cons_of_mem tx ht))
    have h1 : (0 : Int) ≤ (match tx.recordType with | .C => segCents tx.segments | .D => 0) := by
      cases tx.recordType
      · exact segCents_nonneg tx.segments (h tx (by simp))
      · simp
    simp only [creditCents, List.map_cons, List.sum_cons]
    simp only [creditCents] at h2
    omega

theorem debitCents_nonneg (txns : List EFTTransaction)
    (h : ∀ tx ∈ txns, ∀ seg ∈ tx.segments, 0 < seg.amountCents) : 0 ≤ debitCents txns := by
  induction txns with
  | nil => simp [debitCents]
  | cons tx rest ih =>
    have h2 := ih (fun t ht => h t (List.mem_cons_of_mem tx ht))
    have h1 : (0 : Int) ≤ (match tx.recordType with | .D => segCents tx.segments | .C => 0) := by
      cases tx.recordType
      · simp
      · exact segCents_nonneg tx.segments (h tx (by simp))
    simp only [debitCents, List.map_cons, List.sum_cons]
    simp only [debitCents] at h2
    omega

/-! ## Decomposition of validateCPA005 and clock-independence helpers -/

theorem validateCPA005_ok_parts {cfg c' : EFTConfiguration} {txns : List EFTTransaction} {w : Nat}
    (h : validateCPA005 cfg txns = .ok (c', w)) :
    (∃ w1, validateConfig cfg = .ok (c', w1)) ∧ (∃ w2, validateTransactions txns = .ok w2) := by
  rw [validateCPA005] at h
  rcases h1 : validateConfig cfg with e | p
  · rw [h1] at h; simp at h
  · rw [h1] at h
    rcases h2 : validateTransactions txns with e | w2
    · rw [h2] at h; simp at h
    · rw [h2] at h
      simp only [Except.ok.injEq, Prod.mk.injEq] at h
      obtain ⟨rfl, hw⟩ := h
      exact ⟨⟨p.2, rfl⟩, ⟨w2, rfl⟩⟩

theorem formatHeader_now_of_some {cfg : EFTConfiguration} {d : JDate}
    (h : cfg.fileCreationDate = some d) (now1 now2 : JDate) :
    formatHeader cfg now1 = formatHeader cfg now2 := by
  rw [formatHeader, formatHeader, h]
  rfl

theorem formatSegment_now_of_some {seg : EFTTransactionSegment} {d : JDate}
    (h : seg.paymentDate = some d) (cfg : EFTConfiguration) (rc i : Nat) (now1 now2 : JDate) :
    formatSegment cfg now1 rc i seg = formatSegment cfg now2 rc i seg := by
  rw [formatSegment, formatSegment, h]
  rfl

theorem encodeSegments_now (cfg : EFTConfiguration) (rt : RecordType) :
    ∀ (segs : List EFTTransactionSegment) (i : Nat) (record : String) (st : EncState),
    (∀ s ∈ segs, s.paymentDate.isSome) →
    ∀ now1 now2, encodeSegments cfg now1 rt segs i record st = encodeSegments cfg now2 rt segs i record st := by
  intro segs
  induction segs with
  | nil => intro i record st hdates now1 now2; rfl
  | cons seg rest ih =>
    intro i record st hdates now1 now2
    have hd : seg.paymentDate.isSome := hdates seg (by simp)
    obtain ⟨d, hd⟩ := Option.isSome_iff_exists.mp hd
    have hrest := fun s hs => hdates s (List.mem_cons_of_mem seg hs)
    rw [encodeSegments, encodeSegments]
    simp only []
    split
    · rw [formatSegment_now_of_some hd cfg _ i now1 now2, ih (i + 1) _ _ hrest now1 now2]
    · rw [formatSegment_now_of_some hd cfg _ i now1 now2, ih (i + 1) _ _ hrest now1 now2]

theorem encodeTransactions_now (cfg : EFTConfiguration) :
    ∀ (txns : List EFTTransaction) (st : EncState),
    (∀ tx ∈ txns, ∀ s ∈ tx.segments, s.paymentDate.isSome) →
    ∀ now1 now2, encodeTransactions cfg now1 txns st = encodeTransactions cfg now2 txns st := by
  intro txns
  induction txns with
  | nil => intro st hdates now1 now2; rfl
  | cons tx rest ih =>
    intro st hdates now1 now2
    rw [encodeTransactions, encodeTransactions, encodeTransaction, encodeTransaction]
    rw [encodeSegments_now cfg tx.recordType tx.segments 0 "" st (hdates tx (by simp)) now1 now2]
    rw [ih _ (fun t ht => hdates t (List.mem_cons_of_mem tx ht)) now1 now2]

theorem encodeLines_now (cfg : EFTConfiguration) (txns : List EFTTransaction) {d : JDate}
    (hcd : cfg.fileCreationDate = some d)
    (hdates : ∀ tx ∈ txns, ∀ s ∈ tx.segments, s.paymentDate.isSome)
    (now1 now2 : JDate) :
    encodeLines cfg now1 txns = encodeLines cfg now2 txns := by
  rw [encodeLines, encodeLines]
  rw [formatHeader_now_of_some hcd now1 now2]
  rw [encodeTransactions_now cfg txns initialEncState hdates now1 now2]

instance {e a : Type} [DecidableEq e] [DecidableEq a] : DecidableEq (Except e a) := fun x y =>
  match x, y with
  | .error u, .error v =>
    if h : u = v then .isTrue (by rw [h]) else .isFalse (by intro hc; cases hc; exact h rfl)
  | .error _, .ok _ => .isFalse (by intro hc; cases hc)
  | .ok _, .error _ => .isFalse (by intro hc; cases hc)
  | .ok u, .ok v =>
    if h : u = v then .isTrue (by rw [h]) else .isFalse (by intro hc; cases hc; exact h rfl)

/-! ## Claims -/

/-- C4: `validateConfig` throws a fatal error if and only if at least
one holds: the originator id is longer than 10 characters, the file
creation number does not match 1-4 digits, the destination data centre
is defined and does not match 0-5 digits, or the destination currency
is defined and is neither CAD nor USD; otherwise it returns a
non-negative warning count. -/
theorem claim_C4 (cfg : EFTConfiguration) :
    ((∃ e, validateConfig cfg = .error e) ↔
      (10 < cfg.originatorId.length
        ∨ isDigitStr 1 4 cfg.fileCreationNumber = false
        ∨ (∃ d, cfg.destinationDataCentre = some d ∧ isDigitStr 0 5 d = false)
        ∨ (∃ c, cfg.destinationCurrency = some c ∧ c ≠ Currency.CAD ∧ c ≠ Currency.USD)))
    ∧ (∀ c' w, validateConfig cfg = .ok (c', w) → 0 ≤ w) := by
  constructor
  · constructor
    · rintro ⟨e, he⟩
      rw [validateConfig] at he
      split at he
      · rename_i h1
        exact Or.inl h1
      · split at he
        · rename_i h1 h2
          refine Or.inr (Or.inl ?_)
          simpa using h2
        · split at he
          · rename_i h1 h2 h3
            refine Or.inr (Or.inr (Or.inl ?_))
            rcases hdc : cfg.destinationDataCentre with _ | d
            · rw [hdc] at h3
              exact absurd h3 (by decide)
            · refine ⟨d, rfl, ?_⟩
              rw [hdc] at h3
              simpa using h3
          · exfalso
            rcases hdcv : cfg.destinationCurrency with _ | c
            · rcases hsn : cfg.originatorShortName with _ | sn <;>
                simp [hsn, hdcv, Currency.code] at he
            · cases c <;>
                rcases hsn : cfg.originatorShortName with _ | sn <;>
                simp [hsn, hdcv, Currency.code] at he
    · intro hcond
      rw [validateConfig]
      rcases hcond with h | h | hd | hc
      · rw [if_pos h]
        exact ⟨_, rfl⟩
      · by_cases h1 : 10 < cfg.originatorId.length
        · rw [if_pos h1]; exact ⟨_, rfl⟩
        · rw [if_neg h1, if_pos (by simp [h])]
          exact ⟨_, rfl⟩
      · obtain ⟨d, hdc, hdig⟩ := hd
        by_cases h1 : 10 < cfg.originatorId.length
        · rw [if_pos h1]; exact ⟨_, rfl⟩
        · rw [if_neg h1]
          by_cases h2 : isDigitStr 1 4 cfg.fileCreationNumber = true
          · rw [if_neg (by simp [h2]), if_pos (by simp [hdc, hdig])]
            exact ⟨_, rfl⟩
          · rw [if_pos (by simpa using (Bool.not_eq_true _).mpr (by simpa using h2))]
            exact ⟨_, rfl⟩
      · obtain ⟨c, _, hc1, hc2⟩ := hc
        cases c
        · exact absurd rfl hc1
        · exact absurd rfl hc2
  · exact fun c' w _ => Nat.zero_le w

/-- Originator id of 11 characters: a fatally invalid configuration
used to witness C4. -/
def cfgBadId : EFTConfiguration :=
  { originatorId := "12345678901"
    originatorShortName := some "S"
    originatorLongName := "L"
    fileCreationNumber := "1"
    fileCreationDate := none
    destinationDataCentre := none
    destinationCurrency := none }

theorem claim_C4_witness : ∃ e, validateConfig cfgBadId = .error e :=
  (claim_C4 cfgBadId).1.mpr (Or.inl (by decide))

theorem update_originatorShortName (cfg : EFTConfiguration) (v : Option String) :
    ({ cfg with originatorShortName := v }).originatorShortName = v := rfl

theorem update_originatorLongName_of_short (cfg : EFTConfiguration) (v : Option String) :
    ({ cfg with originatorShortName := v }).originatorLongName = cfg.originatorLongName := rfl


/-- C9: if `originatorShortName` is absent, `validateConfig` fills it
with `originatorLongName`, adds exactly one warning relative to the same
configuration with the short name already filled in, and changes no
other field; if the short name is present, a successful `validateConfig`
returns the configuration unchanged. -/
theorem claim_C9 (cfg : EFTConfiguration) :
    (cfg.originatorShortName = none →
      validateConfig cfg
        = (validateConfig { cfg with originatorShortName := some cfg.originatorLongName }).map
            (fun p => (p.1, p.2 + 1))
      ∧ (∀ c' w, validateConfig cfg = .ok (c', w) →
          c' = { cfg with originatorShortName := some cfg.originatorLongName }))
    ∧ (∀ s, cfg.originatorShortName = some s →
        ∀ c' w, validateConfig cfg = .ok (c', w) → c' = cfg) := by
  constructor
  · intro hnone
    constructor
    · simp only [validateConfig, hnone, Option.getD_some, if_true, eq_self_iff_true,
        reduceCtorEq, if_false, update_originatorShortName, update_originatorLongName_of_short]
      split_ifs <;> simp [Except.map]
    · intro c' w h
      simp only [validateConfig, hnone, Option.getD_some, if_true, eq_self_iff_true,
        reduceCtorEq, if_false, update_originatorShortName, update_originatorLongName_of_short] at h
      split at h
      · simp at h
      · split at h
        · simp at h
        · split at h
          · simp at h
          · split at h
            · simp at h
            · simp only [Except.ok.injEq, Prod.mk.injEq] at h
              exact h.1.symm
  · intro s hs c' w h
    simp only [validateConfig, hs, Option.getD_some, reduceCtorEq, if_false] at h
    split at h
    · simp at h
    · split at h
      · simp at h
      · split at h
        · simp at h
        · split at h
          · simp at h
          · simp only [Except.ok.injEq, Prod.mk.injEq] at h
            exact h.1.symm

/-- A configuration without a short name, used to witness C9. -/
def cfgNoShort : EFTConfiguration :=
  { originatorId := "ID"
    originatorShortName := none
    originatorLongName := "Long Name Co"
    fileCreationNumber := "42"
    fileCreationDate := none
    destinationDataCentre := none
    destinationCurrency := none }

theorem claim_C9_witness :
    validateConfig cfgNoShort
      = (validateConfig
          { cfgNoShort with originatorShortName := some cfgNoShort.originatorLongName }).map
          (fun p => (p.1, p.2 + 1)) :=
  ((claim_C9 cfgNoShort).1 rfl).1

/-- C10: when the configuration's file creation date and every
segment's payment date are supplied, `formatToCPA005` does not depend on
the wall clock; an omitted date makes the corresponding field fall back
to the current date at encoding time. -/
theorem claim_C10 :
    (∀ (cfg : EFTConfiguration) (txns : List EFTTransaction) (d : JDate),
      cfg.fileCreationDate = some d →
      (∀ tx ∈ txns, ∀ seg ∈ tx.segments, seg.paymentDate.isSome) →
      ∀ now1 now2, formatToCPA005 cfg txns now1 = formatToCPA005 cfg txns now2)
    ∧ (∀ (cfg : EFTConfiguration) (now : JDate), cfg.fileCreationDate = none →
        formatHeader cfg now = formatHeader { cfg with fileCreationDate := some now } now)
    ∧ (∀ (cfg : EFTConfiguration) (now : JDate) (rc i : Nat) (seg : EFTTransactionSegment),
        seg.paymentDate = none →
        formatSegment cfg now rc i seg
          = formatSegment cfg now rc i { seg with paymentDate := some now }) := by
  refine ⟨?_, ?_, ?_⟩
  · intro cfg txns d hcd hdates now1 now2
    rw [formatToCPA005, formatToCPA005]
    rcases hv : validateCPA005 cfg txns with e | p
    · rfl
    · obtain ⟨c', w⟩ := p
      obtain ⟨⟨w1, hcfg⟩, _⟩ := validateCPA005_ok_parts hv
      have hcd' : c'.fileCreationDate = some d := by
        rw [(validateConfig_ok_fields hcfg).2.2.2.1, hcd]
      simp only []
      rw [encodeLines_now c' txns hcd' hdates now1 now2]
  · intro cfg now hcd
    rw [formatHeader, formatHeader, hcd]
    rfl
  · intro cfg now rc i seg hpd
    rw [formatSegment, formatSegment, hpd]
    rfl

/-- A fully dated configuration and transaction list, used to witness
C10. -/
def cfgDated : EFTConfiguration :=
  { originatorId := "ID"
    originatorShortName := some "Short"
    originatorLongName := "Long"
    fileCreationNumber := "7"
    fileCreationDate := some ⟨24, 123⟩
    destinationDataCentre := none
    destinationCurrency := none }

/-- A transaction list whose only segment carries a payment date, used
to witness C10. -/
def txnsDated : List EFTTransaction :=
  [{ recordType := .C
     segments := [{ cpaCode := 450
                    amountCents := 1234
                    paymentDate := some ⟨24, 124⟩
                    bankInstitutionNumber := "1"
                    bankTransitNumber := "2"
                    itemTraceNumber := none
                    bankAccountNumber := "3"
                    payeeName := "P"
                    crossReferenceNumber := some "X" }] }]

theorem claim_C10_witness :
    formatToCPA005 cfgDated txnsDated ⟨24, 100⟩ = formatToCPA005 cfgDated txnsDated ⟨25, 200⟩ :=
  claim_C10.1 cfgDated txnsDated ⟨24, 123⟩ rfl (by decide) ⟨24, 100⟩ ⟨25, 200⟩

/-- C5: a segment amount of $100,000,000 or more, or of zero or less,
makes `validateTransactions` throw wherever the segment occurs; an
amount of $99,999,999.99 passes validation and its amount field is
encoded as the ten characters 9999999999. -/
theorem claim_C5 :
    (∀ (txns : List EFTTransaction) (tx : EFTTransaction) (seg : EFTTransactionSegment),
      tx ∈ txns → seg ∈ tx.segments →
      (seg.amountCents ≤ 0 ∨ 10000000000 ≤ seg.amountCents) →
      ∃ e, validateTransactions txns = .error e)
    ∧ (∀ (rt : RecordType) (seg : EFTTransactionSegment),
        seg.amountCents = 9999999999 →
        isDigitStr 1 3 seg.bankInstitutionNumber = true →
        isDigitStr 1 5 seg.bankTransitNumber = true →
        isDigitStr 1 12 seg.bankAccountNumber = true →
        (∃ w, validateTransactions [⟨rt, [seg]⟩] = .ok w)
        ∧ (∀ (cfg : EFTConfiguration) (now : JDate) (rc i : Nat),
            ((formatSegment cfg now rc i seg).toList.drop (decimal seg.cpaCode).length).take 10
              = "9999999999".toList)) := by
  constructor
  · intro txns tx seg htx hseg hbad
    rcases hv : validateTransactions txns with e | w
    · exact ⟨e, rfl⟩
    · exfalso
      have := validateTransactions_ok_valid hv tx htx seg hseg
      obtain ⟨h1, h2, _⟩ := this
      omega
  · intro rt seg ha hinst htr hacc
    constructor
    · rw [validateTransactions]
      rw [if_neg (by simp)]
      rw [validateTransactionsFrom, validateTransaction]
      rw [if_neg (by cases rt <;> simp [RecordType.letter])]
      simp only [List.length_cons, List.length_nil]
      rw [validateSegments, validateSegment]
      rw [if_neg (by omega), if_neg (by omega)]
      rw [if_neg (by simp [hinst]), if_neg (by simp [htr]), if_neg (by simp [hacc])]
      simp only []
      rcases hcr : seg.crossReferenceNumber with _ | x
      · exact ⟨_, rfl⟩
      · rw [if_neg (by simp)]
        exact ⟨_, rfl⟩
    · intro cfg now rc i
      rw [formatSegment]
      have hone : ∀ (a b : String), (a ++ b).toList = a.toList ++ b.toList := fun a b => rfl
      simp only [hone, List.append_assoc]
      rw [List.drop_left' (by rw [length_toList])]
      rw [ha]
      rw [show padStart (intDecimal (9999999999 : Int)) 10 '0' = "9999999999" from rfl]
      rfl

/-- A maximal-amount segment ($99,999,999.99), used to witness C5. -/
def segMax : EFTTransactionSegment :=
  { cpaCode := 450
    amountCents := 9999999999
    paymentDate := some ⟨24, 124⟩
    bankInstitutionNumber := "1"
    bankTransitNumber := "2"
    itemTraceNumber := none
    bankAccountNumber := "3"
    payeeName := "P"
    crossReferenceNumber := some "X" }

theorem claim_C5_witness :
    (∃ e, validateTransactions [⟨.C, [{ segMax with amountCents := 10000000000 }]⟩] = .error e)
    ∧ (∃ w, validateTransactions [⟨.C, [segMax]⟩] = .ok w)
    ∧ ((formatSegment cfgDated ⟨24, 1⟩ 2 0 segMax).toList.drop
        (decimal segMax.cpaCode).length).take 10 = "9999999999".toList := by
  refine ⟨?_, ?_, ?_⟩
  · exact claim_C5.1 [⟨.C, [{ segMax with amountCents := 10000000000 }]⟩]
      ⟨.C, [{ segMax with amountCents := 10000000000 }]⟩
      { segMax with amountCents := 10000000000 } (by decide) (by decide) (by decide)
  · exact (claim_C5.2 .C segMax rfl (by decide) (by decide) (by decide)).1
  · exact (claim_C5.2 .C segMax rfl (by decide) (by decide) (by decide)).2 cfgDated ⟨24, 1⟩ 2 0

/-- C7: a transaction with no segments adds exactly one warning at its
step of the validation scan and contributes no physical record and no
state change to the encoding. -/
theorem claim_C7 (e : EFTTransaction) (he : e.segments = []) :
    (∀ (seen : List String) (w : Nat) (rest : List EFTTransaction),
      validateTransactionsFrom seen w (e :: rest) = validateTransactionsFrom seen (w + 1) rest)
    ∧ (∀ (cfg : EFTConfiguration) (now : JDate) (st : EncState) (rest : List EFTTransaction),
        encodeTransactions cfg now (e :: rest) st = encodeTransactions cfg now rest st) := by
  constructor
  · intro seen w rest
    rw [validateTransactionsFrom, validateTransaction, he]
    rw [if_neg (by cases e.recordType <;> simp [RecordType.letter])]
    simp [validateSegments]
  · intro cfg now st rest
    rw [encodeTransactions, encodeTransaction, he]
    simp [encodeSegments]

/-- A transaction with no segments, used to witness C7. -/
def txEmpty : EFTTransaction := { recordType := .D, segments := [] }

theorem claim_C7_witness :
    validateTransactionsFrom [] 0 [txEmpty, ⟨.C, [segMax]⟩]
      = validateTransactionsFrom [] 1 [⟨.C, [segMax]⟩]
    ∧ encodeTransactions cfgDated ⟨24, 1⟩ [txEmpty, ⟨.C, [segMax]⟩] initialEncState
      = encodeTransactions cfgDated ⟨24, 1⟩ [⟨.C, [segMax]⟩] initialEncState :=
  ⟨(claim_C7 txEmpty rfl).1 [] 0 [⟨.C, [segMax]⟩],
   (claim_C7 txEmpty rfl).2 cfgDated ⟨24, 1⟩ initialEncState [⟨.C, [segMax]⟩]⟩

/-- C8: the trailer is the last emitted line, its record-count field
carries the final record sequence number plus one, and that value
equals the total number of emitted lines, header and trailer included. -/
theorem claim_C8 (cfg : EFTConfiguration) (now : JDate) (txns : List EFTTransaction) :
    ∃ (details : List String) (st : EncState),
      encodeLines cfg now txns = formatHeader cfg now :: details ++ [formatTrailer cfg st]
      ∧ (∃ rest, formatTrailer cfg st
          = "Z" ++ (padStart (decimal (st.recordCount + 1)) 9 '0' ++ rest))
      ∧ st.recordCount + 1 = (encodeLines cfg now txns).length := by
  refine ⟨(encodeTransactions cfg now txns initialEncState).1,
    (encodeTransactions cfg now txns initialEncState).2, rfl, ?_, ?_⟩
  · simp only [formatTrailer, String.append_assoc]
    exact ⟨_, rfl⟩
  · rw [encodeLines, encodeTransactions_state]
    simp [initialEncState, encodeTransactions_lines_length]
    omega

theorem claim_C8_witness :
    ∃ (details : List String) (st : EncState),
      encodeLines cfgDated ⟨24, 1⟩ txnsDated
        = formatHeader cfgDated ⟨24, 1⟩ :: details ++ [formatTrailer cfgDated st]
      ∧ (∃ rest, formatTrailer cfgDated st
          = "Z" ++ (padStart (decimal (st.recordCount + 1)) 9 '0' ++ rest))
      ∧ st.recordCount + 1 = (encodeLines cfgDated ⟨24, 1⟩ txnsDated).length :=
  claim_C8 cfgDated ⟨24, 1⟩ txnsDated

theorem addSegmentValue_recordCount (rt : RecordType) (cents : Int) (st : EncState) :
    (addSegmentValue rt cents st).recordCount = st.recordCount := by
  cases rt <;> rfl

/-- C3: a transaction with exactly 7 segments yields exactly two
physical detail records: the first carries segments 1-6, the second
only the 7th; both open with the transaction's record-type letter, and
the second's record sequence number strictly exceeds the first's. -/
theorem claim_C3 (cfg : EFTConfiguration) (now : JDate) (st : EncState) (tx : EFTTransaction)
    (h7 : tx.segments.length = 7) :
    ∃ s1 s2 s3 s4 s5 s6 s7,
      tx.segments = [s1, s2, s3, s4, s5, s6, s7]
      ∧ (encodeTransaction cfg now st tx).1
        = [detailLead cfg tx.recordType (st.recordCount + 1)
             ++ formatSegment cfg now (st.recordCount + 1) 0 s1
             ++ formatSegment cfg now (st.recordCount + 1) 1 s2
             ++ formatSegment cfg now (st.recordCount + 1) 2 s3
             ++ formatSegment cfg now (st.recordCount + 1) 3 s4
             ++ formatSegment cfg now (st.recordCount + 1) 4 s5
             ++ formatSegment cfg now (st.recordCount + 1) 5 s6,
           padEnd (detailLead cfg tx.recordType (st.recordCount + 1 + 1)
             ++ formatSegment cfg now (st.recordCount + 1 + 1) 6 s7) 1464 ' ']
      ∧ (∃ u v, (encodeTransaction cfg now st tx).1
          = [tx.recordType.letter ++ u, tx.recordType.letter ++ v])
      ∧ st.recordCount + 1 < st.recordCount + 1 + 1 := by
  obtain ⟨s1, s2, s3, s4, s5, s6, s7, hsg⟩ :
      ∃ s1 s2 s3 s4 s5 s6 s7, tx.segments = [s1, s2, s3, s4, s5, s6, s7] := by
    rcases hl : tx.segments with
      _ | ⟨a1, _ | ⟨a2, _ | ⟨a3, _ | ⟨a4, _ | ⟨a5, _ | ⟨a6, _ | ⟨a7, _ | ⟨a8, r⟩⟩⟩⟩⟩⟩⟩⟩
    all_goals rw [hl] at h7
    all_goals simp only [List.length_cons, List.length_nil] at h7
    all_goals first
      | exact absurd h7 (by omega)
      | exact ⟨a1, a2, a3, a4, a5, a6, a7, rfl⟩
  have hmain : (encodeTransaction cfg now st tx).1
      = [detailLead cfg tx.recordType (st.recordCount + 1)
           ++ formatSegment cfg now (st.recordCount + 1) 0 s1
           ++ formatSegment cfg now (st.recordCount + 1) 1 s2
           ++ formatSegment cfg now (st.recordCount + 1) 2 s3
           ++ formatSegment cfg now (st.recordCount + 1) 3 s4
           ++ formatSegment cfg now (st.recordCount + 1) 4 s5
           ++ formatSegment cfg now (st.recordCount + 1) 5 s6,
         padEnd (detailLead cfg tx.recordType (st.recordCount + 1 + 1)
           ++ formatSegment cfg now (st.recordCount + 1 + 1) 6 s7) 1464 ' '] := by
    rw [encodeTransaction, hsg]
    simp [encodeSegments, startChunkState, addSegmentValue_recordCount,
      if_neg (detailLead_append_ne_empty cfg tx.recordType _ _)]
  refine ⟨s1, s2, s3, s4, s5, s6, s7, hsg, hmain, ?_, by omega⟩
  rw [hmain]
  simp only [detailLead, padEnd, String.append_assoc]
  exact ⟨_, _, rfl⟩

/-- A 7-segment credit transaction, used to witness C3. -/
def tx7 : EFTTransaction := { recordType := .C, segments := List.replicate 7 segMax }

theorem claim_C3_witness :
    ∃ s1 s2 s3 s4 s5 s6 s7,
      tx7.segments = [s1, s2, s3, s4, s5, s6, s7]
      ∧ (encodeTransaction cfgDated ⟨24, 1⟩ initialEncState tx7).1
        = [detailLead cfgDated tx7.recordType (initialEncState.recordCount + 1)
             ++ formatSegment cfgDated ⟨24, 1⟩ (initialEncState.recordCount + 1) 0 s1
             ++ formatSegment cfgDated ⟨24, 1⟩ (initialEncState.recordCount + 1) 1 s2
             ++ formatSegment cfgDated ⟨24, 1⟩ (initialEncState.recordCount + 1) 2 s3
             ++ formatSegment cfgDated ⟨24, 1⟩ (initialEncState.recordCount + 1) 3 s4
             ++ formatSegment cfgDated ⟨24, 1⟩ (initialEncState.recordCount + 1) 4 s5
             ++ formatSegment cfgDated ⟨24, 1⟩ (initialEncState.recordCount + 1) 5 s6,
           padEnd (detailLead cfgDated tx7.recordType (initialEncState.recordCount + 1 + 1)
             ++ formatSegment cfgDated ⟨24, 1⟩ (initialEncState.recordCount + 1 + 1) 6 s7) 1464 ' ']
      ∧ (∃ u v, (encodeTransaction cfgDated ⟨24, 1⟩ initialEncState tx7).1
          = [tx7.recordType.letter ++ u, tx7.recordType.letter ++ v])
      ∧ initialEncState.recordCount + 1 < initialEncState.recordCount + 1 + 1 :=
  claim_C3 cfgDated ⟨24, 1⟩ initialEncState tx7 (by decide)

/-- C2 (amended): the trailer's debit/credit amount totals are the sums
in cents over the segments of Debit/Credit transactions, while the
debit/credit count fields count the emitted physical detail records of
each type (one per group of up to six segments), not the segments. -/
theorem claim_C2_amended (cfg : EFTConfiguration) (now : JDate) (txns : List EFTTransaction) :
    ∃ (details : List String) (st : EncState),
      encodeLines cfg now txns = formatHeader cfg now :: details ++ [formatTrailer cfg st]
      ∧ st.totalValueDebits = debitCents txns
      ∧ st.totalValueCredits = creditCents txns
      ∧ st.totalNumberDebits = debitRecords txns
      ∧ st.totalNumberCredits = creditRecords txns := by
  refine ⟨(encodeTransactions cfg now txns initialEncState).1,
    (encodeTransactions cfg now txns initialEncState).2, rfl, ?_, ?_, ?_, ?_⟩ <;>
    (rw [encodeTransactions_state]; simp [initialEncState])

/-- Two credit segments in a single transaction, used to refute C2 as
stated: they produce one physical record, so the trailer's credit count
field is 1, not 2. -/
def txnsTwoCredit : List EFTTransaction :=
  [{ recordType := .C
     segments := [{ segMax with amountCents := 100, crossReferenceNumber := some "A" },
                  { segMax with amountCents := 200, crossReferenceNumber := some "B" }] }]

/-- C2 counterexample: a validated input with one Credit transaction of
two segments; the trailer's credit count field (characters 60-67)
reads 00000001 although the number of credit segments is 2, so the
count field is not the segment count the claim asserts. -/
theorem claim_C2_counterexample :
    validateCPA005 cfgDated txnsTwoCredit = .ok (cfgDated, 0)
    ∧ (encodeLines cfgDated ⟨24, 1⟩ txnsTwoCredit).length = 3
    ∧ (((encodeLines cfgDated ⟨24, 1⟩ txnsTwoCredit).getD 2 "").toList.drop 60).take 8
      = "00000001".toList
    ∧ (txnsTwoCredit.map
        (fun tx => match tx.recordType with | .C => tx.segments.length | .D => 0)).sum = 2
    ∧ padStart (decimal 2) 8 '0' ≠ "00000001" := by
  refine ⟨by decide, by decide, by decide, by decide, by decide⟩

/-- C1 (amended): for inputs passing `validateCPA005`, every emitted
line has length exactly 1464 provided additionally that every segment's
CPA code prints as exactly 3 digits, every supplied item trace number
is 18 characters long with its segment's 1-based position below 10000,
and the derived trailer counters fit their fixed-width fields (final
record count below 10^9, per-type record counts below 10^8, per-type
cent totals below 10^14). -/
theorem claim_C1_amended (cfg : EFTConfiguration) (txns : List EFTTransaction) (now : JDate)
    (c' : EFTConfiguration) (w : Nat)
    (hval : validateCPA005 cfg txns = .ok (c', w))
    (hcpa : ∀ tx ∈ txns, ∀ seg ∈ tx.segments, (decimal seg.cpaCode).length = 3)
    (hitem : ∀ tx ∈ txns, ∀ j (hj : j < tx.segments.length), ItemFit j (tx.segments.get ⟨j, hj⟩))
    (hrc : (encodeTransactions c' now txns initialEncState).2.recordCount + 1 < 1000000000)
    (hnd : (encodeTransactions c' now txns initialEncState).2.totalNumberDebits < 100000000)
    (hnc : (encodeTransactions c' now txns initialEncState).2.totalNumberCredits < 100000000)
    (hvd : (encodeTransactions c' now txns initialEncState).2.totalValueDebits < 100000000000000)
    (hvc : (encodeTransactions c' now txns initialEncState).2.totalValueCredits < 100000000000000) :
    ∀ l ∈ encodeLines c' now txns, l.length = 1464 := by
  obtain ⟨⟨w1, hcfg⟩, ⟨w2, htx⟩⟩ := validateCPA005_ok_parts hval
  have hfields := validateConfig_ok_fields hcfg
  have hCfgFit : CfgFit c' := ⟨hfields.2.2.2.2.2.2.1, hfields.2.2.2.2.2.2.2.1⟩
  have hvalid := validateTransactions_ok_valid htx
  have hGood : ∀ tx ∈ txns, GoodTx tx := by
    intro tx htxm j hj
    exact ⟨hvalid tx htxm _ (List.get_mem _ _ _), hcpa tx htxm _ (List.get_mem _ _ _),
      hitem tx htxm j hj⟩
  have hstate := encodeTransactions_state c' now txns initialEncState
  have hrc' : initialEncState.recordCount + totalRecords txns < 1000000000 := by
    rw [hstate] at hrc
    simp [initialEncState] at hrc ⊢
    omega
  intro l hl
  rw [encodeLines] at hl
  rcases List.mem_cons.mp hl with hl | hl
  · subst hl
    exact formatHeader_length c' now hfields.2.2.2.2.2.2.1 hfields.2.2.2.2.2.2.2.2
  · rcases List.mem_append.mp hl with hl | hl
    · exact encodeTransactions_length c' now hCfgFit txns initialEncState hGood hrc' l hl
    · simp only [List.mem_singleton] at hl
      subst hl
      have hpos : ∀ tx ∈ txns, ∀ seg ∈ tx.segments, 0 < seg.amountCents :=
        fun tx ht seg hs => (hvalid tx ht seg hs).1
      refine formatTrailer_length c' _ hfields.2.2.2.2.2.2.1 hrc ?_ hvd ?_ hvc hnd hnc
      · rw [hstate]
        simp [initialEncState]
        exact debitCents_nonneg txns hpos
      · rw [hstate]
        simp [initialEncState]
        exact creditCents_nonneg txns hpos

theorem formatToCPA005_ok {cfg c' : EFTConfiguration} {txns : List EFTTransaction} {w : Nat}
    (now : JDate) (h : validateCPA005 cfg txns = .ok (c', w)) :
    formatToCPA005 cfg txns now = .ok (String.intercalate "\r\n" (encodeLines c' now txns)) := by
  rw [formatToCPA005, h]

theorem getD_mem_of_lt {α : Type} (l : List α) (n : Nat) (d : α) (h : n < l.length) :
    l.getD n d ∈ l := by
  rw [List.getD_eq_getElem l _ h]
  exact List.getElem_mem h

theorem claim_C1_witness :
    (encodeLines cfgDated ⟨24, 1⟩ txnsDated).length = 3
    ∧ ((encodeLines cfgDated ⟨24, 1⟩ txnsDated).getD 1 "").length = 1464 :=
  ⟨by decide,
   claim_C1_amended cfgDated txnsDated ⟨24, 1⟩ cfgDated 0 (by decide) (by decide) (by decide)
     (by decide) (by decide) (by decide) (by decide) (by decide)
     ((encodeLines cfgDated ⟨24, 1⟩ txnsDated).getD 1 "")
     (getD_mem_of_lt _ 1 "" (by decide))⟩

/-- One credit transaction of 7 segments whose CPA code prints as 2
digits; it passes validation with warnings only, used to refute C1 as
stated. -/
def txns7Short : List EFTTransaction :=
  [{ recordType := .C
     segments := (List.range 7).map
       (fun n => { segMax with cpaCode := 45, crossReferenceNumber := some (decimal n) }) }]

/-- C1 counterexample: an input that passes `validateCPA005` (with
warnings only) for which the first detail record emitted by
`formatToCPA005` has length 1458, not 1464: its six 2-digit CPA codes
each lose one character, and the record is pushed without padding when
the 7th segment starts a new record. -/
theorem claim_C1_counterexample :
    (validateCPA005 cfgDated txns7Short).isOk = true
    ∧ formatToCPA005 cfgDated txns7Short ⟨24, 1⟩
        = .ok (String.intercalate "\r\n" (encodeLines cfgDated ⟨24, 1⟩ txns7Short))
    ∧ (encodeLines cfgDated ⟨24, 1⟩ txns7Short).length = 4
    ∧ ((encodeLines cfgDated ⟨24, 1⟩ txns7Short).getD 1 "").length = 1458 := by
  refine ⟨by decide, formatToCPA005_ok ⟨24, 1⟩ (by decide :
    validateCPA005 cfgDated txns7Short = .ok (cfgDated, 8)), by decide, by decide⟩

/-! ## Cross-reference locality infrastructure -/

theorem crossUpd_cpaCode (seg : EFTTransactionSegment) (v : Option String) :
    ({ seg with crossReferenceNumber := v }).cpaCode = seg.cpaCode := rfl

theorem crossUpd_amountCents (seg : EFTTransactionSegment) (v : Option String) :
    ({ seg with crossReferenceNumber := v }).amountCents = seg.amountCents := rfl

theorem crossUpd_paymentDate (seg : EFTTransactionSegment) (v : Option String) :
    ({ seg with crossReferenceNumber := v }).paymentDate = seg.paymentDate := rfl

theorem crossUpd_inst (seg : EFTTransactionSegment) (v : Option String) :
    ({ seg with crossReferenceNumber := v }).bankInstitutionNumber = seg.bankInstitutionNumber := rfl

theorem crossUpd_transit (seg : EFTTransactionSegment) (v : Option String) :
    ({ seg with crossReferenceNumber := v }).bankTransitNumber = seg.bankTransitNumber := rfl

theorem crossUpd_item (seg : EFTTransactionSegment) (v : Option String) :
    ({ seg with crossReferenceNumber := v }).itemTraceNumber = seg.itemTraceNumber := rfl

theorem crossUpd_account (seg : EFTTransactionSegment) (v : Option String) :
    ({ seg with crossReferenceNumber := v }).bankAccountNumber = seg.bankAccountNumber := rfl

theorem crossUpd_payee (seg : EFTTransactionSegment) (v : Option String) :
    ({ seg with crossReferenceNumber := v }).payeeName = seg.payeeName := rfl

theorem crossUpd_cross (seg : EFTTransactionSegment) (v : Option String) :
    ({ seg with crossReferenceNumber := v }).crossReferenceNumber = v := rfl

theorem startChunkState_recordCount (rt : RecordType) (st : EncState) :
    (startChunkState rt st).recordCount = st.recordCount + 1 := rfl

/-- The part of a segment's block that precedes the 19-character
cross-reference field. -/
def segBlockFront (cfg : EFTConfiguration) (now : JDate) (i : Nat)
    (seg : EFTTransactionSegment) : String :=
  decimal seg.cpaCode
    ++ padStart (intDecimal seg.amountCents) 10 '0'
    ++ toJulianDate (seg.paymentDate.getD now)
    ++ padStart seg.bankInstitutionNumber 4 '0'
    ++ padStart seg.bankTransitNumber 5 '0'
    ++ padEnd seg.bankAccountNumber 12 ' '
    ++ (match seg.itemTraceNumber with
        | none => padStart "" 22 '0'
        | some t => t ++ padStart (decimal (i + 1)) 4 '0')
    ++ padStart "" 3 '0'
    ++ sliceTo (padEnd (cfg.originatorShortName.getD cfg.originatorLongName) 15 ' ') 15
    ++ sliceTo (padEnd seg.payeeName 30 ' ') 30
    ++ sliceTo (padEnd cfg.originatorLongName 30 ' ') 30
    ++ padEnd (sliceTo cfg.originatorId 5) 10 ' '

/-- The fixed filler that follows the cross-reference field. -/
def segBlockBack : String :=
  padEnd "" 9 ' ' ++ padEnd "" 12 ' ' ++ padEnd "" 15 ' '
    ++ padEnd "" 22 ' ' ++ padEnd "" 2 ' ' ++ padStart "" 11 '0'

theorem formatSegment_decomp (cfg : EFTConfiguration) (now : JDate) (rc i : Nat)
    (seg : EFTTransactionSegment) :
    formatSegment cfg now rc i seg
      = segBlockFront cfg now i seg
        ++ (sliceTo (padEnd
              (seg.crossReferenceNumber.getD (fallbackCrossReference cfg rc i)) 19 ' ') 19
        ++ segBlockBack) := by
  rw [formatSegment, segBlockFront, segBlockBack]
  simp only [String.append_assoc]

theorem segBlockFront_crossUpd (cfg : EFTConfiguration) (now : JDate) (i : Nat)
    (seg : EFTTransactionSegment) (v : Option String) :
    segBlockFront cfg now i { seg with crossReferenceNumber := v }
      = segBlockFront cfg now i seg := rfl

theorem crossField_length (z : String) : (sliceTo (padEnd z 19 ' ') 19).length = 19 := by
  rw [length_sliceTo, length_padEnd]
  omega

theorem formatSegment_crossref_length (cfg : EFTConfiguration) (now : JDate) (rc i : Nat)
    (seg : EFTTransactionSegment) (z z' : String) :
    (formatSegment cfg now rc i { seg with crossReferenceNumber := some z }).length
      = (formatSegment cfg now rc i { seg with crossReferenceNumber := some z' }).length := by
  rw [formatSegment_decomp, formatSegment_decomp]
  simp only [Option.getD_some, String.length_append, crossField_length, segBlockFront_crossUpd,
    crossUpd_cross]

theorem ite_detailLead {α : Type} (cfg : EFTConfiguration) (rt : RecordType) (n : Nat)
    (s : String) (a b : α) :
    (if detailLead cfg rt n ++ s = "" then a else b) = b :=
  if_neg (detailLead_append_ne_empty cfg rt n s)

theorem encodeLines_two_singles (cfg : EFTConfiguration) (now : JDate) (rt1 rt2 : RecordType)
    (s1 s2 : EFTTransactionSegment) :
    encodeLines cfg now [⟨rt1, [s1]⟩, ⟨rt2, [s2]⟩]
      = [formatHeader cfg now,
         padEnd (detailLead cfg rt1 2 ++ formatSegment cfg now 2 0 s1) 1464 ' ',
         padEnd (detailLead cfg rt2 3 ++ formatSegment cfg now 3 0 s2) 1464 ' ',
         formatTrailer cfg (addSegmentValue rt2 s2.amountCents (startChunkState rt2
           (addSegmentValue rt1 s1.amountCents (startChunkState rt1 initialEncState))))] := by
  rw [encodeLines]
  simp only [encodeTransactions, encodeTransaction, encodeSegments]
  simp only [Nat.mod_self, Nat.zero_mod, if_pos, Nat.lt_irrefl, if_neg, ite_detailLead,
    startChunkState_recordCount, addSegmentValue_recordCount]
  simp [initialEncState, startChunkState_recordCount, addSegmentValue_recordCount, ite_detailLead]

theorem validateSegment_nil_seen {w : Nat} {seg : EFTTransactionSegment} {x : String}
    {r : List String × Nat} (h1 : seg.crossReferenceNumber = some x)
    (hv : validateSegment [] w seg = .ok r) : r.1 = [x] := by
  rw [validateSegment] at hv
  split at hv
  · simp at hv
  split at hv
  · simp at hv
  split at hv
  · simp at hv
  split at hv
  · simp at hv
  split at hv
  · simp at hv
  rw [h1] at hv
  simp at hv
  rw [← hv]

theorem validateTransaction_single_crossref {rt : RecordType} {s1 : EFTTransactionSegment}
    {x : String} {p : List String × Nat} (h1 : s1.crossReferenceNumber = some x)
    (hv : validateTransaction [] 0 ⟨rt, [s1]⟩ = .ok p) : p.1 = [x] := by
  rw [validateTransaction] at hv
  split at hv
  · simp at hv
  · rw [validateSegments] at hv
    split at hv
    · simp at hv
    · rename_i r seen' w' heq
      rw [validateSegments] at hv
      have hs := validateSegment_nil_seen h1 heq
      simp only [Except.ok.injEq] at hv
      rw [← hv]
      exact hs

set_option maxHeartbeats 4000000 in
/-- C6: a duplicated cross-reference number only adds one warning (the
validation outcome is otherwise that of the distinct-number variant,
fatal or not); a supplied cross-reference number reaches the output
only inside that segment's own 19-character field (space-padded and
truncated); an omitted one is encoded exactly as if the deterministic
fallback f fileCreationNumber r recordSequence s position had been
supplied. -/
theorem claim_C6 :
    (∀ (rt1 rt2 : RecordType) (s1 s2 : EFTTransactionSegment) (x y : String),
      s1.crossReferenceNumber = some x →
      s2.crossReferenceNumber = some x →
      y ≠ x →
      validateTransactions [⟨rt1, [s1]⟩, ⟨rt2, [s2]⟩]
        = (validateTransactions
            [⟨rt1, [s1]⟩, ⟨rt2, [{ s2 with crossReferenceNumber := some y }]⟩]).map
            (fun w => w + 1))
    ∧ (∀ (cfg : EFTConfiguration) (now : JDate) (rt1 rt2 : RecordType)
        (s1 s2 : EFTTransactionSegment),
        ∃ h l1 front back t, ∀ z : String,
          encodeLines cfg now [⟨rt1, [s1]⟩, ⟨rt2, [{ s2 with crossReferenceNumber := some z }]⟩]
            = [h, l1, front ++ (sliceTo (padEnd z 19 ' ') 19 ++ back), t])
    ∧ (∀ (cfg : EFTConfiguration) (now : JDate) (rc i : Nat) (seg : EFTTransactionSegment),
        seg.crossReferenceNumber = none →
        formatSegment cfg now rc i seg
          = formatSegment cfg now rc i
              { seg with crossReferenceNumber := some (fallbackCrossReference cfg rc i) })
    ∧ (∀ (cfg : EFTConfiguration) (rc i : Nat),
        fallbackCrossReference cfg rc i
          = "f" ++ (cfg.fileCreationNumber ++ ("r" ++ (decimal rc ++ ("s" ++ decimal (i + 1)))))) := by
  refine ⟨?_, ?_, ?_, ?_⟩
  · intro rt1 rt2 s1 s2 x y h1 h2 hxy
    have hyx : (y == x) = false := beq_eq_false_iff_ne.mpr hxy
    have hcx : ([x].contains x) = true := by simp
    have hcy : ([x].contains y) = false := by simp [List.contains, List.elem, hyx]
    have hc1 : ¬((0 + 1 + 1 : Nat) = 0) := by decide
    have hc2 : ¬((0 + 1 + 1 : Nat) ≠ 0 ∧ 999999999 < 0 + 1 + 1) := by decide
    rw [validateTransactions, validateTransactions]
    simp only [List.length_cons, List.length_nil]
    simp only [if_neg hc1, if_neg hc2]
    rw [validateTransactionsFrom, validateTransactionsFrom]
    rcases hv1 : validateTransaction [] 0 ⟨rt1, [s1]⟩ with e | p
    · simp [Except.map]
    · obtain ⟨seen1, w1⟩ := p
      have hseen : seen1 = [x] := by
        simpa using validateTransaction_single_crossref h1 hv1
      subst hseen
      simp only []
      rw [validateTransactionsFrom, validateTransactionsFrom, validateTransaction,
        validateTransaction]
      have hrtF : ¬((!(["C", "D"].contains rt2.letter)) = true) := by
        cases rt2 <;> simp [RecordType.letter]
      simp only [if_neg hrtF]
      rw [validateSegments, validateSegments, validateSegment, validateSegment]
      simp only [crossUpd_cpaCode, crossUpd_amountCents, crossUpd_paymentDate, crossUpd_inst,
        crossUpd_transit, crossUpd_item, crossUpd_account, crossUpd_payee, crossUpd_cross,
        h2, List.length_cons, List.length_nil, hcx, hcy, if_true, if_false]
      split_ifs <;> simp_all [validateSegments, validateTransactionsFrom, Except.map]
  · intro cfg now rt1 rt2 s1 s2
    refine ⟨formatHeader cfg now,
      padEnd (detailLead cfg rt1 2 ++ formatSegment cfg now 2 0 s1) 1464 ' ',
      detailLead cfg rt2 3 ++ segBlockFront cfg now 0 s2,
      segBlockBack ++ String.mk (List.replicate
        (1464 - (detailLead cfg rt2 3
          ++ formatSegment cfg now 3 0 { s2 with crossReferenceNumber := some "X" }).length) ' '),
      formatTrailer cfg (addSegmentValue rt2 s2.amountCents (startChunkState rt2
        (addSegmentValue rt1 s1.amountCents (startChunkState rt1 initialEncState)))),
      ?_⟩
    intro z
    rw [encodeLines_two_singles, crossUpd_amountCents]
    simp only [List.cons.injEq, and_true, true_and, eq_self_iff_true]
    have hlen : (detailLead cfg rt2 3
        ++ formatSegment cfg now 3 0 { s2 with crossReferenceNumber := some z }).length
        = (detailLead cfg rt2 3
        ++ formatSegment cfg now 3 0 { s2 with crossReferenceNumber := some "X" }).length := by
      rw [String.length_append, String.length_append,
        formatSegment_crossref_length cfg now 3 0 s2 z "X"]
    conv_lhs => rw [padEnd]
    rw [hlen]
    rw [formatSegment_decomp cfg now 3 0 { s2 with crossReferenceNumber := some z }]
    simp only [segBlockFront_crossUpd, crossUpd_cross, Option.getD_some]
    simp only [String.append_assoc]
  · intro cfg now rc i seg h
    rw [formatSegment, formatSegment, h]
    simp only [crossUpd_cpaCode, crossUpd_amountCents, crossUpd_paymentDate, crossUpd_inst,
      crossUpd_transit, crossUpd_item, crossUpd_account, crossUpd_payee, crossUpd_cross,
      Option.getD_some, Option.getD_none]
  · intro cfg rc i
    rw [fallbackCrossReference]
    simp only [String.append_assoc]

/-- A segment with no cross-reference number, used to witness C6. -/
def segNoCross : EFTTransactionSegment := { segMax with crossReferenceNumber := none }

theorem claim_C6_witness :
    (segMax.crossReferenceNumber = some "X"
      ∧ ("Y" : String) ≠ "X"
      ∧ validateTransactions [⟨.C, [segMax]⟩, ⟨.C, [segMax]⟩]
          = (validateTransactions
              [⟨.C, [segMax]⟩, ⟨.C, [{ segMax with crossReferenceNumber := some "Y" }]⟩]).map
              (fun w => w + 1))
    ∧ (segNoCross.crossReferenceNumber = none
      ∧ formatSegment cfgDated ⟨24, 100⟩ 5 2 segNoCross
          = formatSegment cfgDated ⟨24, 100⟩ 5 2
              { segNoCross with
                  crossReferenceNumber := some (fallbackCrossReference cfgDated 5 2) }) :=
  ⟨⟨rfl, by decide, claim_C6.1 .C .C segMax segMax "X" "Y" rfl rfl (by decide)⟩,
   rfl, claim_C6.2.2.1 cfgDated ⟨24, 100⟩ 5 2 segNoCross rfl⟩
